import Mathlib

/-!
# battlefield-eosio: `dm-decode.go`

A shallow embedding of the decoder driver `dm-decode.go`: the normalisation
pass `sanitizeBlock`, the read loop `readActualBlocks` and the JSON array
writer `writeActualBlocks`.

Conventions of the embedding.

* A Go pointer to a message is an `Option`; `none` is the nil pointer.  The
  elements of a repeated field are never nil.
* Records are trees, as a decoder builds them: no two positions share a
  sub-record, so the in-place writes of the Go code are a functional rebuild.
* A run-time panic (a nil dereference, a failed single-value type assertion)
  is the `Except.error` result; nothing recovers from a panic in this program.
* `fmt.Printf` calls are recorded as their format string and argument list.
-/

namespace DmDecode

/-! ## Data model -/

/-- Modelled from the spec: the protobuf timestamp message (`pbts.Timestamp`),
whose declaration is in an imported package: seconds and nanoseconds. -/
structure Timestamp where
  seconds : Int
  nanos : Int
deriving DecidableEq, Repr

/-- Modelled from the spec: a pointer to a Log Context
(`*pbcodec.Exception_LogContext`): nil, or a record with a source line number,
a thread name, a timestamp and a parent Log Context pointer. -/
inductive LogContext where
  | absent : LogContext
  | node (line : Int) (threadName : String) (timestamp : Option Timestamp)
      (context : LogContext) : LogContext
deriving DecidableEq, Repr

/-- Modelled from the spec: a Stack Frame, carrying an optional Log Context. -/
structure StackFrame where
  context : LogContext
deriving DecidableEq, Repr

/-- Modelled from the spec: an Exception, an ordered list of Stack Frames. -/
structure Exception where
  stack : List StackFrame
deriving DecidableEq, Repr

/-- Modelled from the spec: an Action Trace, with an elapsed-time duration and
an optional Exception. -/
structure ActionTrace where
  elapsed : Int
  exception : Option Exception
deriving DecidableEq, Repr

/-- Modelled from the spec: a usage counter with its "last ordinal" field. -/
structure UsageAccumulator where
  lastOrdinal : Nat
deriving DecidableEq, Repr

/-- Modelled from the spec: the Account Usage case of a Resource-Limit
Operation: CPU-usage and network-usage counters, each behind a pointer. -/
structure RlimitAccountUsage where
  cpuUsage : Option UsageAccumulator
  netUsage : Option UsageAccumulator
deriving DecidableEq, Repr

/-- Modelled from the spec: the State case of a Resource-Limit Operation:
average-block CPU and network usage counters, each behind a pointer. -/
structure RlimitState where
  averageBlockCpuUsage : Option UsageAccumulator
  averageBlockNetUsage : Option UsageAccumulator
deriving DecidableEq, Repr

/-- Modelled from the spec: the variant tag of a Resource-Limit Operation.  The
type switch of `sanitizeRLimitOp` names two cases; `other` is every value of
the `Kind` interface that is neither (its default, no-op branch). -/
inductive RlimitOpKind where
  | accountUsage (v : RlimitAccountUsage) : RlimitOpKind
  | state (v : RlimitState) : RlimitOpKind
  | other (tag : Nat) : RlimitOpKind
deriving DecidableEq, Repr

/-- Modelled from the spec: a Resource-Limit Operation, a tagged variant. -/
structure RlimitOp where
  kind : RlimitOpKind
deriving DecidableEq, Repr

/-- Modelled from the spec: a permission, carrying a last-updated timestamp. -/
structure PermissionObject where
  lastUpdated : Option Timestamp
deriving DecidableEq, Repr

/-- Modelled from the spec: a Permission Operation, with an optional old and an
optional new permission. -/
structure PermOp where
  oldPerm : Option PermissionObject
  newPerm : Option PermissionObject
deriving DecidableEq, Repr

/-- Modelled from the spec: a Failed Sub-transaction Trace, with its own
elapsed-time, Exception and Action Traces (one level of nesting). -/
structure FailedDtrxTrace where
  elapsed : Int
  exception : Option Exception
  actionTraces : List ActionTrace
deriving DecidableEq, Repr

/-- Modelled from the spec: a Transaction Trace. -/
structure TransactionTrace where
  elapsed : Int
  exception : Option Exception
  permOps : List PermOp
  rlimitOps : List RlimitOp
  actionTraces : List ActionTrace
  failedDtrxTrace : Option FailedDtrxTrace
deriving DecidableEq, Repr

/-- Modelled from the spec: a Block Record: an identity/reference, an ordered
list of Resource-Limit Operations and an ordered list of Transaction Traces. -/
structure Block where
  ref : String
  rlimitOps : List RlimitOp
  unfilteredTransactionTraces : List TransactionTrace
deriving DecidableEq, Repr

/-- Modelled from the spec: the reference of a Block Record (`block.AsRef()`),
used only in diagnostic messages. -/
def Block.AsRef (b : Block) : String := b.ref

/-- The ways this program panics. -/
inductive Panic where
  | nilDereference : Panic
  | interfaceConversion : Panic
deriving DecidableEq, Repr

/-! ## `sanitizeBlock` (lines 118-184) -/

/-- The value `init` stores in `fixedTimestamp`: the instant
`2006-01-02T15:04:05Z` as a timestamp message (line 30-31). -/
def fixedTimestamp : Option Timestamp := some ⟨1136214245, 0⟩

/-- Lines 120-127: overwrite line, thread name and timestamp, then recurse
into the parent; a nil pointer is left alone. -/
def sanitizeContext : LogContext → LogContext
  | .absent => .absent
  | .node _ _ _ context => .node 666 "thread" fixedTimestamp (sanitizeContext context)

/-- Lines 129-135: sanitize the Log Context of every Stack Frame; a nil
exception is left alone. -/
def sanitizeException : Option Exception → Option Exception
  | none => none
  | some exception =>
    some { exception with
      stack := exception.stack.map fun stack => { stack with context := sanitizeContext stack.context } }

/-- The assignment `p.LastOrdinal = n` through a pointer `p`: a nil pointer
dereference when `p` is nil. -/
def setLastOrdinal (p : Option UsageAccumulator) (n : Nat) : Except Panic (Option UsageAccumulator) :=
  match p with
  | none => .error .nilDereference
  | some acc => .ok (some { acc with lastOrdinal := n })

/-- Lines 137-146: the type switch on the kind of a Resource-Limit Operation. -/
def sanitizeRLimitOp (rlimitOp : RlimitOp) : Except Panic RlimitOp :=
  match rlimitOp.kind with
  | .accountUsage v => do
    let cpu ← setLastOrdinal v.cpuUsage 111
    let net ← setLastOrdinal v.netUsage 222
    pure { rlimitOp with kind := .accountUsage { v with cpuUsage := cpu, netUsage := net } }
  | .state v => do
    let cpu ← setLastOrdinal v.averageBlockCpuUsage 333
    let net ← setLastOrdinal v.averageBlockNetUsage 444
    pure { rlimitOp with kind := .state { v with averageBlockCpuUsage := cpu, averageBlockNetUsage := net } }
  | .other _ => pure rlimitOp

/-- A `for _, x := range xs` loop whose body rewrites `x` and may panic: the
elements are visited in order and the first panic ends the loop. -/
def forEach {α : Type} (body : α → Except Panic α) : List α → Except Panic (List α)
  | [] => .ok []
  | x :: xs => do
    let x' ← body x
    let xs' ← forEach body xs
    pure (x' :: xs')

/-- Lines 157-163: the body of the loop over the Permission Operations. -/
def sanitizePermOp (permOp : PermOp) : PermOp :=
  { oldPerm := permOp.oldPerm.map fun p => { p with lastUpdated := fixedTimestamp }
    newPerm := permOp.newPerm.map fun p => { p with lastUpdated := fixedTimestamp } }

/-- Lines 171-172: the body of the loop over a trace's own Action Traces. -/
def sanitizeActionTrace (actTrace : ActionTrace) : ActionTrace :=
  { elapsed := 999, exception := sanitizeException actTrace.exception }

/-- Lines 175-180: the Failed Sub-transaction Trace branch: only exceptions
are sanitized. -/
def sanitizeFailedDtrxTrace : Option FailedDtrxTrace → Option FailedDtrxTrace
  | none => none
  | some failed =>
    some { failed with
      exception := sanitizeException failed.exception
      actionTraces := failed.actionTraces.map fun actTrace =>
        { actTrace with exception := sanitizeException actTrace.exception } }

/-- Lines 153-180: the body of the loop over the Transaction Traces, in the
order of the source. -/
def sanitizeTrxTrace (trxTrace : TransactionTrace) : Except Panic TransactionTrace := do
  let elapsed := 888
  let exception := sanitizeException trxTrace.exception
  let permOps := trxTrace.permOps.map sanitizePermOp
  let rlimitOps ← forEach sanitizeRLimitOp trxTrace.rlimitOps
  let actionTraces := trxTrace.actionTraces.map sanitizeActionTrace
  let failedDtrxTrace := sanitizeFailedDtrxTrace trxTrace.failedDtrxTrace
  pure
    { elapsed := elapsed
      exception := exception
      permOps := permOps
      rlimitOps := rlimitOps
      actionTraces := actionTraces
      failedDtrxTrace := failedDtrxTrace }

/-- Lines 118-184: `sanitizeBlock`. -/
def sanitizeBlock (block : Block) : Except Panic Block := do
  let rlimitOps ← forEach sanitizeRLimitOp block.rlimitOps
  let traces ← forEach sanitizeTrxTrace block.unfilteredTransactionTraces
  pure { block with rlimitOps := rlimitOps, unfilteredTransactionTraces := traces }

/-! ## Process model -/

/-- A call of `fmt.Printf`: the format string and the arguments. -/
structure Printf where
  format : String
  args : List String
deriving DecidableEq, Repr

/-- How a function of the program ends: it returns, the process exits with a
code (`os.Exit`), or the process panics. -/
inductive Exit (α : Type) where
  | returned (v : α) : Exit α
  | exited (code : Nat) : Exit α
  | panicked (p : Panic) : Exit α
deriving DecidableEq, Repr

/-- Lines 226-229: `quit` prints the message with a newline and exits with
code 1.  The result is the print that precedes the exit. -/
def quit (message : String) (args : List String) : Printf :=
  ⟨message ++ "\n", args⟩

/-- Lines 214-218: `ensure`. `none` when the condition holds, else the print
of `quit`. -/
def ensure (condition : Bool) (message : String) (args : List String) : Option Printf :=
  if !condition then some (quit message args) else none

/-- Lines 220-224: `noError`. `none` when the error is nil, else the print of
`quit`. -/
def noError (err : Option String) (message : String) (args : List String) : Option Printf :=
  match err with
  | some e => some (quit (message ++ ": " ++ e) args)
  | none => none

/-! ## `readActualBlocks` (lines 79-116) -/

/-- The error of a `reader.Read()` call, when not nil: `io.EOF`, or any other
error with its text. -/
inductive ReadErr where
  | eof : ReadErr
  | failure (text : String) : ReadErr
deriving DecidableEq, Repr

/-- The item of a `reader.Read()` call, an interface value: the nil interface,
a value of dynamic type `*pbcodec.Block` (a nil pointer when `none`), or a
value of another dynamic type. -/
inductive Item where
  | nil : Item
  | block (p : Option Block) : Item
  | foreign (typeName : String) : Item
deriving DecidableEq, Repr

/-- The pair returned by one `reader.Read()` call. -/
structure ReadResult where
  el : Item
  err : Option ReadErr
deriving DecidableEq, Repr

/-- What `readActualBlocks` runs against: the results of `os.Open` and
`codec.NewConsoleReader`, and the result of the k-th `reader.Read()` call. -/
structure ReadEnv where
  openErr : Option String
  readerErr : Option String
  read : Nat → ReadResult

/-- The single-value type assertion `el.(*pbcodec.Block)`: it panics when the
dynamic type of `el` is not `*pbcodec.Block`. -/
def assertBlock : Item → Except Panic (Option Block)
  | .block p => .ok p
  | .nil => .error .interfaceConversion
  | .foreign _ => .error .interfaceConversion

/-- The two-value type assertion `block, ok := el.(*pbcodec.Block)`. -/
def assertBlockOk : Item → Option Block × Bool
  | .block p => (p, true)
  | .nil => (none, false)
  | .foreign _ => (none, false)

/-- Line 93: `el != nil && el.(*pbcodec.Block) != nil`, with the short-circuit
of `&&`. -/
def isBlockItem (el : Item) : Except Panic Bool :=
  if el ≠ .nil then do
    let p ← assertBlock el
    pure p.isSome
  else pure false

/-- The variables of the read loop, and what has been printed and read so far. -/
structure ReadState where
  reads : Nat
  lastBlockRead : Option Block
  blocks : List Block
  stdout : List Printf
deriving DecidableEq, Repr

/-- The end of a run of `readActualBlocks`: the prints, the number of
`reader.Read()` calls made, and how it ended. -/
structure ReadOutcome where
  stdout : List Printf
  reads : Nat
  result : Exit (List Block)
deriving DecidableEq, Repr

/-- One pass of the loop body either goes round again or ends the run. -/
inductive Flow where
  | next (s : ReadState) : Flow
  | stop (o : ReadOutcome) : Flow

/-- Lines 102-112: the examination of the error of a read. -/
def checkErr (filePath : String) (err : Option ReadErr) (s : ReadState) : Flow :=
  match err with
  | some .eof => .stop ⟨s.stdout, s.reads, .returned s.blocks⟩
  | some (.failure text) =>
    match s.lastBlockRead with
    | none =>
      match noError (some text) "Unable to read first block from file %q" [filePath] with
      | some p => .stop ⟨s.stdout ++ [p], s.reads, .exited 1⟩
      | none => .next s
    | some last =>
      match noError (some text) "Unable to read block from file %q, last block read was %s\n"
          [filePath, last.AsRef] with
      | some p => .stop ⟨s.stdout ++ [p], s.reads, .exited 1⟩
      | none => .next s
  | none => .next s

/-- Lines 92-112: one pass of the loop body, from the state `s`. -/
def readIteration (env : ReadEnv) (filePath : String) (s : ReadState) : Flow :=
  let r := env.read s.reads
  let s := { s with reads := s.reads + 1 }
  match isBlockItem r.el with
  | .error p => .stop ⟨s.stdout, s.reads, .panicked p⟩
  | .ok false => checkErr filePath r.err s
  | .ok true =>
    let (block, ok) := assertBlockOk r.el
    match ensure ok "Read block is not a \"pbcodec.Block\" but should have been" [] with
    | some p => .stop ⟨s.stdout ++ [p], s.reads, .exited 1⟩
    | none =>
      match block with
      | none => .stop ⟨s.stdout, s.reads, .panicked .nilDereference⟩
      | some b =>
        match sanitizeBlock b with
        | .error p => .stop ⟨s.stdout, s.reads, .panicked p⟩
        | .ok lastBlockRead =>
          checkErr filePath r.err
            { s with
              lastBlockRead := some lastBlockRead
              stdout := s.stdout ++ [⟨"Parsed block %q\n", [lastBlockRead.AsRef]⟩]
              blocks := s.blocks ++ [lastBlockRead] }

/-- Lines 91-113: the `for` loop, run for at most `fuel` passes; `none` when
the loop has not ended by then. -/
def readLoop (env : ReadEnv) (filePath : String) : Nat → ReadState → Option ReadOutcome
  | 0, _ => none
  | fuel + 1, s =>
    match readIteration env filePath s with
    | .stop o => some o
    | .next s' => readLoop env filePath fuel s'

/-- Lines 79-116: `readActualBlocks`, the loop run for at most `fuel` passes. -/
def readActualBlocks (env : ReadEnv) (filePath : String) (fuel : Nat) : Option ReadOutcome :=
  match noError env.openErr "Unable to open actual blocks file %q" [filePath] with
  | some p => some ⟨[p], 0, .exited 1⟩
  | none =>
    match noError env.readerErr "Unable to create console reader for actual blocks file %q" [filePath] with
    | some p => some ⟨[p], 0, .exited 1⟩
    | none => readLoop env filePath fuel ⟨0, none, [], []⟩

/-! ## `writeActualBlocks` (lines 50-77) -/

/-- What `writeActualBlocks` runs against: the result of `os.Create` and the
error, if any, of the k-th `file.WriteString` call. -/
structure FileSys where
  createErr : Option String
  writeErr : Nat → Option String

/-- The end of a run of `writeActualBlocks`: the strings written to the file,
in order, the prints, and how it ended. -/
structure WriteOutcome where
  written : List String
  stdout : List Printf
  result : Exit Unit
deriving DecidableEq, Repr

/-- The contents of a file after the given `WriteString` calls. -/
def fileText (written : List String) : String :=
  written.foldr (fun s acc => s ++ acc) ""

/-- The call `file.WriteString(s)`: the new list of strings written and the
error.  A failed call writes nothing. -/
def writeString (fs : FileSys) (written : List String) (s : String) : List String × Option String :=
  match fs.writeErr written.length with
  | none => (written ++ [s], none)
  | some e => (written, some e)

/-- Lines 61-72: the loop over the blocks from index `i` on; the result is the
list of strings written when the loop ends, or the end of the run. -/
def writeLoop (marshal : Block → Except String String) (fs : FileSys) (lastIndex : Nat) :
    Nat → List Block → List String → Except WriteOutcome (List String)
  | _, [], written => .ok written
  | i, block :: rest, written =>
    let (out, err) : String × Option String :=
      match marshal block with
      | .ok out => (out, none)
      | .error e => ("", some e)
    match noError err "Unable to marshal block %q" [block.AsRef] with
    | some p => .error ⟨written, [p], .exited 1⟩
    | none =>
      let (written, err) := writeString fs written out
      match noError err "Unable to write block %q" [block.AsRef] with
      | some p => .error ⟨written, [p], .exited 1⟩
      | none =>
        if i ≠ lastIndex then
          let (written, err) := writeString fs written ",\n"
          match noError err "Unable to write block delimiter %q" [block.AsRef] with
          | some p => .error ⟨written, [p], .exited 1⟩
          | none => writeLoop marshal fs lastIndex (i + 1) rest written
        else writeLoop marshal fs lastIndex (i + 1) rest written

/-- Lines 50-77: `writeActualBlocks`; `marshal` is
`jsonpb.MarshalIndentToString(block, "  ")`. -/
def writeActualBlocks (marshal : Block → Except String String) (fs : FileSys)
    (actualFile : String) (blocks : List Block) : WriteOutcome :=
  match noError fs.createErr "Unable to write file %q" [actualFile] with
  | some p => ⟨[], [p], .exited 1⟩
  | none =>
    let (written, err) := writeString fs [] "[\n"
    match noError err "Unable to write list start" [] with
    | some p => ⟨written, [p], .exited 1⟩
    | none =>
      let blockCount := blocks.length
      let looped : Except WriteOutcome (List String) :=
        if blockCount > 0 then
          let lastIndex := blockCount - 1
          writeLoop marshal fs lastIndex 0 blocks written
        else .ok written
      match looped with
      | .error o => o
      | .ok written =>
        let (written, err) := writeString fs written "]\n"
        match noError err "Unable to write list end" [] with
        | some p => ⟨written, [p], .exited 1⟩
        | none => ⟨written, [], .returned ()⟩

/-! ## Properties of sanitized records -/

/-- The Log Context pointer reached from `c` after `k` parent links; nil once
the chain has ended. -/
def LogContext.atDepth : LogContext → Nat → LogContext
  | c, 0 => c
  | .absent, _ + 1 => .absent
  | .node _ _ _ parent, k + 1 => parent.atDepth k

/-- Every Log Context of the parent chain of `c`, at every depth, carries the
three sentinel values. -/
def ChainSanitized (c : LogContext) : Prop :=
  ∀ (k : Nat) (line : Int) (threadName : String) (timestamp : Option Timestamp)
    (parent : LogContext),
    c.atDepth k = .node line threadName timestamp parent →
      line = 666 ∧ threadName = "thread" ∧ timestamp = fixedTimestamp

/-- Every Log Context under every Stack Frame of the exception, when there is
one, is sanitized. -/
def ExceptionSanitized (e : Option Exception) : Prop :=
  ∀ ex, e = some ex → ∀ frame ∈ ex.stack, ChainSanitized frame.context

/-- Every Log Context of the record tree is sanitized: under the Exception of
each Transaction Trace, of each of its Action Traces, of its Failed
Sub-transaction Trace and of each Action Trace of the latter. -/
def ContextsSanitized (b : Block) : Prop :=
  ∀ t ∈ b.unfilteredTransactionTraces,
    ExceptionSanitized t.exception ∧
    (∀ a ∈ t.actionTraces, ExceptionSanitized a.exception) ∧
    ∀ d, t.failedDtrxTrace = some d →
      ExceptionSanitized d.exception ∧ ∀ a ∈ d.actionTraces, ExceptionSanitized a.exception

/-- Both counters of the operation are present, for the two kinds through
whose counters `sanitizeRLimitOp` writes. -/
def RlimitOp.countersPresent (op : RlimitOp) : Bool :=
  match op.kind with
  | .accountUsage v => v.cpuUsage.isSome && v.netUsage.isSome
  | .state v => v.averageBlockCpuUsage.isSome && v.averageBlockNetUsage.isSome
  | .other _ => true

/-- Every usage counter that `sanitizeBlock` writes through is present: those
of the block's own Resource-Limit Operations and of each Transaction Trace. -/
def Block.countersPresent (b : Block) : Bool :=
  b.rlimitOps.all RlimitOp.countersPresent &&
    b.unfilteredTransactionTraces.all fun t => t.rlimitOps.all RlimitOp.countersPresent

/-- The relation between a Resource-Limit Operation `op` and its sanitized form
`op'`: by the tag of `op`, the two last ordinals are the sentinels of that tag,
or the operation is unchanged. -/
def RlimitSanitized (op op' : RlimitOp) : Prop :=
  match op.kind with
  | .accountUsage _ =>
    ∃ v', op'.kind = .accountUsage v' ∧
      v'.cpuUsage.map (fun c => c.lastOrdinal) = some 111 ∧
      v'.netUsage.map (fun c => c.lastOrdinal) = some 222
  | .state _ =>
    ∃ v', op'.kind = .state v' ∧
      v'.averageBlockCpuUsage.map (fun c => c.lastOrdinal) = some 333 ∧
      v'.averageBlockNetUsage.map (fun c => c.lastOrdinal) = some 444
  | .other _ => op' = op

/-! ## Sample records -/

/-- A Log Context chain of depth 5. -/
def sampleContext : LogContext :=
  .node 12 "net-0" (some ⟨1600000000, 5⟩) (.node 40 "chain-1" none (.node 7 "t2" (some ⟨1, 2⟩)
    (.node 8 "t3" none (.node 9 "t4" none (.node 10 "t5" (some ⟨3, 4⟩) .absent)))))

/-- An exception with a deep chain, a chain of depth 0 and a frame without
Log Context. -/
def sampleException : Option Exception :=
  some ⟨[⟨sampleContext⟩, ⟨.node 3 "main" none .absent⟩, ⟨.absent⟩]⟩

/-- An Account Usage operation with CPU ordinal 5 and network ordinal 9. -/
def sampleAccountUsage : RlimitOp := ⟨.accountUsage ⟨some ⟨5⟩, some ⟨9⟩⟩⟩

/-- A State operation with ordinals 21 and 22. -/
def sampleState : RlimitOp := ⟨.state ⟨some ⟨21⟩, some ⟨22⟩⟩⟩

/-- A transaction trace with every optional part present. -/
def sampleTrace : TransactionTrace :=
  { elapsed := 1734
    exception := sampleException
    permOps := [⟨some ⟨some ⟨1590000000, 500⟩⟩, none⟩, ⟨none, some ⟨none⟩⟩]
    rlimitOps := [sampleAccountUsage, ⟨.other 3⟩]
    actionTraces := [⟨31, sampleException⟩, ⟨47, none⟩]
    failedDtrxTrace := some ⟨52, sampleException, [⟨63, sampleException⟩]⟩ }

/-- A transaction trace with every optional part absent. -/
def bareTrace : TransactionTrace :=
  { elapsed := 5, exception := none, permOps := [⟨none, none⟩], rlimitOps := []
    actionTraces := [⟨6, none⟩], failedDtrxTrace := none }

/-- A block record with two traces and three top-level operations. -/
def sampleBlock : Block :=
  { ref := "#2 (00000002a1)"
    rlimitOps := [sampleAccountUsage, sampleState, ⟨.other 0⟩]
    unfilteredTransactionTraces := [sampleTrace, bareTrace] }

/-- An Account Usage operation whose CPU-usage counter is absent. -/
def accountUsageNoCpu : RlimitOp := ⟨.accountUsage ⟨none, some ⟨9⟩⟩⟩

/-- A block record with one Resource-Limit Operation, tagged Account Usage,
whose CPU-usage counter is absent. -/
def blockNoCpu : Block :=
  { ref := "#3 (00000003b2)", rlimitOps := [accountUsageNoCpu], unfilteredTransactionTraces := [] }

/-! ## Records that differ in volatile values only -/

/-- Erase line number, thread name and timestamp at every depth of the chain. -/
def scrubContext : LogContext → LogContext
  | .absent => .absent
  | .node _ _ _ parent => .node 0 "" none (scrubContext parent)

/-- Erase the volatile values of every Log Context of the exception. -/
def scrubException (e : Option Exception) : Option Exception :=
  e.map fun ex => { ex with stack := ex.stack.map fun f => { f with context := scrubContext f.context } }

/-- Erase the last ordinal of a counter, keeping its presence. -/
def scrubCounter (p : Option UsageAccumulator) : Option UsageAccumulator :=
  p.map fun acc => { acc with lastOrdinal := 0 }

/-- Erase the last ordinals of a Resource-Limit Operation. -/
def scrubRlimitOp (op : RlimitOp) : RlimitOp :=
  match op.kind with
  | .accountUsage v => ⟨.accountUsage ⟨scrubCounter v.cpuUsage, scrubCounter v.netUsage⟩⟩
  | .state v => ⟨.state ⟨scrubCounter v.averageBlockCpuUsage, scrubCounter v.averageBlockNetUsage⟩⟩
  | .other tag => ⟨.other tag⟩

/-- Erase the last-updated timestamps of a Permission Operation. -/
def scrubPermOp (p : PermOp) : PermOp :=
  { oldPerm := p.oldPerm.map fun q => { q with lastUpdated := none }
    newPerm := p.newPerm.map fun q => { q with lastUpdated := none } }

/-- Erase the elapsed-time and the Log Context values of an Action Trace. -/
def scrubActionTrace (a : ActionTrace) : ActionTrace :=
  { elapsed := 0, exception := scrubException a.exception }

/-- Erase every volatile value of a Failed Sub-transaction Trace: its
elapsed-time, those of its Action Traces, and the Log Context values. -/
def scrubFailedDtrxTrace (d : Option FailedDtrxTrace) : Option FailedDtrxTrace :=
  d.map fun f =>
    { elapsed := 0, exception := scrubException f.exception
      actionTraces := f.actionTraces.map scrubActionTrace }

/-- Erase only the Log Context values of a Failed Sub-transaction Trace,
keeping its elapsed-times. -/
def scrubFailedContexts (d : Option FailedDtrxTrace) : Option FailedDtrxTrace :=
  d.map fun f =>
    { f with
      exception := scrubException f.exception
      actionTraces := f.actionTraces.map fun a => { a with exception := scrubException a.exception } }

/-- Erase the volatile values of a Transaction Trace; `scrubFailed` is applied
to its Failed Sub-transaction Trace. -/
def scrubTrxTrace (scrubFailed : Option FailedDtrxTrace → Option FailedDtrxTrace)
    (t : TransactionTrace) : TransactionTrace :=
  { elapsed := 0
    exception := scrubException t.exception
    permOps := t.permOps.map scrubPermOp
    rlimitOps := t.rlimitOps.map scrubRlimitOp
    actionTraces := t.actionTraces.map scrubActionTrace
    failedDtrxTrace := scrubFailed t.failedDtrxTrace }

/-- Erase the volatile values of a Block Record; `scrubFailed` is applied to
each Failed Sub-transaction Trace. -/
def scrubBlockWith (scrubFailed : Option FailedDtrxTrace → Option FailedDtrxTrace)
    (b : Block) : Block :=
  { b with
    rlimitOps := b.rlimitOps.map scrubRlimitOp
    unfilteredTransactionTraces := b.unfilteredTransactionTraces.map (scrubTrxTrace scrubFailed) }

/-- The record with every elapsed-time, timestamp, last ordinal, Log Context
line number and thread name erased, wherever it occurs. -/
def scrubBlock (b : Block) : Block := scrubBlockWith scrubFailedDtrxTrace b

/-- Two records are identical except for the values of their elapsed-times,
timestamps, last ordinals and Log Context line numbers and thread names. -/
def SameUpToVolatile (x y : Block) : Prop := scrubBlock x = scrubBlock y

/-- Two records are identical except for the values of the fields that
`sanitizeBlock` assigns: as `SameUpToVolatile`, but the elapsed-times under a
Failed Sub-transaction Trace must agree. -/
def SameUpToAssigned (x y : Block) : Prop :=
  scrubBlockWith scrubFailedContexts x = scrubBlockWith scrubFailedContexts y

/-- A record with one trace, whose Failed Sub-transaction Trace has the given
elapsed-time. -/
def failedElapsedBlock (elapsed : Int) : Block :=
  { ref := "#4 (00000004c3)"
    rlimitOps := []
    unfilteredTransactionTraces :=
      [{ elapsed := 10, exception := none, permOps := [], rlimitOps := [], actionTraces := []
         failedDtrxTrace := some ⟨elapsed, none, []⟩ }] }

/-! ## Reader and writer scenarios -/

/-- The print of line 98 for a block reference. -/
def parsedBlockPrint (ref : String) : Printf := ⟨"Parsed block %q\n", [ref]⟩

/-- The print that precedes the exit on a read error with text `text`: by the
reference of the last block read, if any (lines 107-111 through `noError` and
`quit`). -/
def readFailurePrint (filePath text : String) : Option String → Printf
  | none => ⟨"Unable to read first block from file %q: " ++ text ++ "\n", [filePath]⟩
  | some ref =>
    ⟨"Unable to read block from file %q, last block read was %s\n: " ++ text ++ "\n",
      [filePath, ref]⟩

/-- The Block Record carried by an item, if any. -/
def blockOfItem : Item → Option Block
  | .block (some b) => some b
  | _ => none

/-- The Block Records among the items, in order. -/
def blocksOf (items : List Item) : List Block := items.filterMap blockOfItem

/-- A reader that yields the given results in order, then end-of-stream. -/
def listReader (rs : List ReadResult) : Nat → ReadResult :=
  fun k => rs.getD k ⟨.nil, some .eof⟩

/-- A second sample block, with another reference. -/
def sampleBlock2 : Block := { sampleBlock with ref := "#3 (00000003f7)", rlimitOps := [] }

/-- A stream of two valid records followed by a fatal error. -/
def fatalEnv : ReadEnv :=
  ⟨none, none, listReader
    [⟨.block (some sampleBlock), none⟩, ⟨.block (some sampleBlock2), none⟩,
     ⟨.nil, some (.failure "unexpected line")⟩]⟩

/-- A stream whose first item is of a type other than `*pbcodec.Block`. -/
def foreignEnv : ReadEnv := ⟨none, none, listReader [⟨.foreign "string", none⟩]⟩

/-- A stream of one record, whose CPU-usage counter is absent, then
end-of-stream. -/
def noCpuEnv : ReadEnv := ⟨none, none, listReader [⟨.block (some blockNoCpu), none⟩]⟩

/-- A file system on which every operation succeeds. -/
def goodFileSys : FileSys := ⟨none, fun _ => none⟩

/-- An encoder standing for `jsonpb.MarshalIndentToString`: an object that
holds the reference of the block. -/
def sampleMarshal (b : Block) : Except String String := .ok ("\x7b\"id\": " ++ b.ref ++ "\x7d")

/-! ## Permissions, failed traces and the frame of `sanitizeBlock` -/

/-- The relation between a Permission Operation `p` and its sanitized form
`p'`: an old or new permission that is present stays present with the fixed
sentinel timestamp as its last-updated timestamp; an absent one stays absent. -/
def PermSanitized (p p' : PermOp) : Prop :=
  (match p.oldPerm with
    | none => p'.oldPerm = none
    | some _ => ∃ q, p'.oldPerm = some q ∧ q.lastUpdated = fixedTimestamp) ∧
  (match p.newPerm with
    | none => p'.newPerm = none
    | some _ => ∃ q, p'.newPerm = some q ∧ q.lastUpdated = fixedTimestamp)

/-- The relation between the Failed Sub-transaction Trace pointer `d` of a
trace and that of the sanitized trace, `d'`: nil stays nil; otherwise the
elapsed-time of the failed trace and the elapsed-times of its Action Traces,
in order, are those of `d`. -/
def FailedElapsedKept (d d' : Option FailedDtrxTrace) : Prop :=
  match d with
  | none => d' = none
  | some f =>
    ∃ f', d' = some f' ∧ f'.elapsed = f.elapsed ∧
      f'.actionTraces.map (fun a => a.elapsed) = f.actionTraces.map (fun a => a.elapsed)

/-- The number of Log Contexts on the parent chain that starts at `c`. -/
def LogContext.depth : LogContext → Nat
  | .absent => 0
  | .node _ _ _ parent => parent.depth + 1

/-- Two exception pointers have the same shape: both nil, or both present with
Stack Frames that correspond position by position, the Log Context chains of
corresponding frames having the same depth. -/
def ExceptionShape (e e' : Option Exception) : Prop :=
  match e, e' with
  | none, none => True
  | some x, some x' =>
    List.Forall₂ (fun f f' => f'.context.depth = f.context.depth) x.stack x'.stack
  | _, _ => False

/-- Two Resource-Limit Operations have the same shape: the same variant tag
and, for the two tags with counters, the same counters present. -/
def RlimitShape (op op' : RlimitOp) : Prop :=
  match op.kind, op'.kind with
  | .accountUsage v, .accountUsage v' =>
    v'.cpuUsage.isSome = v.cpuUsage.isSome ∧ v'.netUsage.isSome = v.netUsage.isSome
  | .state v, .state v' =>
    v'.averageBlockCpuUsage.isSome = v.averageBlockCpuUsage.isSome ∧
      v'.averageBlockNetUsage.isSome = v.averageBlockNetUsage.isSome
  | .other tag, .other tag' => tag' = tag
  | _, _ => False

/-- Two Permission Operations have the same permissions present. -/
def PermShape (p p' : PermOp) : Prop :=
  p'.oldPerm.isSome = p.oldPerm.isSome ∧ p'.newPerm.isSome = p.newPerm.isSome

/-- Two Failed Sub-transaction Trace pointers have the same shape: both nil, or
both present with exceptions of the same shape and Action Traces that
correspond position by position with exceptions of the same shape. -/
def FailedShape (d d' : Option FailedDtrxTrace) : Prop :=
  match d, d' with
  | none, none => True
  | some f, some f' =>
    ExceptionShape f.exception f'.exception ∧
      List.Forall₂ (fun a a' => ExceptionShape a.exception a'.exception)
        f.actionTraces f'.actionTraces
  | _, _ => False

/-- Two Transaction Traces have the same shape: every list has the same length
and its elements correspond in order with the same shape, and every optional
part is present in both or in neither. -/
def TraceShape (t t' : TransactionTrace) : Prop :=
  ExceptionShape t.exception t'.exception ∧
  List.Forall₂ PermShape t.permOps t'.permOps ∧
  List.Forall₂ RlimitShape t.rlimitOps t'.rlimitOps ∧
  List.Forall₂ (fun a a' => ExceptionShape a.exception a'.exception)
    t.actionTraces t'.actionTraces ∧
  FailedShape t.failedDtrxTrace t'.failedDtrxTrace

/-- Two Block Records have the same shape: the same reference, and lists of
Resource-Limit Operations and of Transaction Traces that correspond position
by position with the same shape. -/
def BlockShape (b b' : Block) : Prop :=
  b'.ref = b.ref ∧
  List.Forall₂ RlimitShape b.rlimitOps b'.rlimitOps ∧
  List.Forall₂ TraceShape b.unfilteredTransactionTraces b'.unfilteredTransactionTraces

/-- The record that `sanitizeBlock` returns on `b`; `b` itself where it panics.
Used to name the expected records of the scenarios. -/
def sanitized (b : Block) : Block :=
  match sanitizeBlock b with
  | .ok b' => b'
  | .error _ => b

/-- A stream of one record without error, then a call that returns a second
record together with end-of-stream. -/
def eofWithBlockEnv : ReadEnv :=
  ⟨none, none, listReader
    [⟨.block (some sampleBlock), none⟩, ⟨.block (some sampleBlock2), some .eof⟩]⟩

/-- A stream of one record without error, then a call that returns a second
record together with a fatal error. -/
def failureWithBlockEnv : ReadEnv :=
  ⟨none, none, listReader
    [⟨.block (some sampleBlock), none⟩,
     ⟨.block (some sampleBlock2), some (.failure "unexpected line")⟩]⟩

/-- A stream of one record without error, then a call that returns the record
with an absent CPU-usage counter together with end-of-stream. -/
def noCpuWithEofEnv : ReadEnv :=
  ⟨none, none, listReader
    [⟨.block (some sampleBlock), none⟩, ⟨.block (some blockNoCpu), some .eof⟩]⟩

/-- A stream of one record without error, then a call that returns the record
with an absent CPU-usage counter together with a fatal error. -/
def noCpuWithFailureEnv : ReadEnv :=
  ⟨none, none, listReader
    [⟨.block (some sampleBlock), none⟩,
     ⟨.block (some blockNoCpu), some (.failure "unexpected line")⟩]⟩

/-! ## Lemmas on the loops of `sanitizeBlock` -/

theorem forEach_ok_forall₂ {α : Type} (body : α → Except Panic α) :
    ∀ (xs ys : List α), forEach body xs = .ok ys → List.Forall₂ (fun x y => body x = .ok y) xs ys
  | [], ys, h => by
    simp only [forEach, Except.ok.injEq] at h
    subst h
    exact List.Forall₂.nil
  | x :: xs, ys, h => by
    simp only [forEach, bind, Except.bind, pure, Except.pure] at h
    cases hx : body x with
    | error e => rw [hx] at h; cases h
    | ok x' =>
      rw [hx] at h
      cases hxs : forEach body xs with
      | error e => rw [hxs] at h; cases h
      | ok xs' =>
        rw [hxs] at h
        simp only [Except.ok.injEq] at h
        subst h
        exact List.Forall₂.cons hx (forEach_ok_forall₂ body xs xs' hxs)

theorem forEach_of_forall₂ {α : Type} (body : α → Except Panic α) :
    ∀ (xs ys : List α), List.Forall₂ (fun x y => body x = .ok y) xs ys → forEach body xs = .ok ys
  | _, _, .nil => rfl
  | _, _, .cons hx hxs => by
    simp only [forEach, bind, Except.bind, pure, Except.pure, hx, forEach_of_forall₂ body _ _ hxs]

theorem forall₂_mem_right {α β : Type} {R : α → β → Prop} :
    ∀ {xs : List α} {ys : List β}, List.Forall₂ R xs ys → ∀ y ∈ ys, ∃ x ∈ xs, R x y
  | _, _, .nil, y, hy => by cases hy
  | _, _, .cons hx hxs, y, hy => by
    rcases List.mem_cons.mp hy with rfl | hy
    · exact ⟨_, List.mem_cons_self _ _, hx⟩
    · obtain ⟨x, hxm, hr⟩ := forall₂_mem_right hxs y hy
      exact ⟨x, List.mem_cons_of_mem _ hxm, hr⟩

theorem sanitizeBlock_ok (b b' : Block) (h : sanitizeBlock b = .ok b') :
    ∃ ops traces, forEach sanitizeRLimitOp b.rlimitOps = .ok ops ∧
      forEach sanitizeTrxTrace b.unfilteredTransactionTraces = .ok traces ∧
      b' = { b with rlimitOps := ops, unfilteredTransactionTraces := traces } := by
  simp only [sanitizeBlock, bind, Except.bind, pure, Except.pure] at h
  cases hops : forEach sanitizeRLimitOp b.rlimitOps with
  | error e => rw [hops] at h; cases h
  | ok ops =>
    rw [hops] at h
    cases htr : forEach sanitizeTrxTrace b.unfilteredTransactionTraces with
    | error e => rw [htr] at h; cases h
    | ok traces =>
      rw [htr] at h
      simp only [Except.ok.injEq] at h
      exact ⟨ops, traces, rfl, rfl, h.symm⟩

theorem sanitizeTrxTrace_ok (t t' : TransactionTrace) (h : sanitizeTrxTrace t = .ok t') :
    ∃ ops, forEach sanitizeRLimitOp t.rlimitOps = .ok ops ∧
      t' = { elapsed := 888
             exception := sanitizeException t.exception
             permOps := t.permOps.map sanitizePermOp
             rlimitOps := ops
             actionTraces := t.actionTraces.map sanitizeActionTrace
             failedDtrxTrace := sanitizeFailedDtrxTrace t.failedDtrxTrace } := by
  simp only [sanitizeTrxTrace, bind, Except.bind, pure, Except.pure] at h
  cases hops : forEach sanitizeRLimitOp t.rlimitOps with
  | error e => rw [hops] at h; cases h
  | ok ops =>
    rw [hops] at h
    simp only [Except.ok.injEq] at h
    exact ⟨ops, rfl, h.symm⟩

theorem sanitizeContext_chain (c : LogContext) : ChainSanitized (sanitizeContext c) := by
  induction c with
  | absent =>
    intro k line threadName timestamp parent h
    cases k <;> simp [sanitizeContext, LogContext.atDepth] at h
  | node l th ts p ih =>
    intro k line threadName timestamp parent h
    cases k with
    | zero =>
      simp only [sanitizeContext, LogContext.atDepth, LogContext.node.injEq] at h
      exact ⟨h.1.symm, h.2.1.symm, h.2.2.1.symm⟩
    | succ k =>
      simp only [sanitizeContext, LogContext.atDepth] at h
      exact ih k line threadName timestamp parent h

theorem sanitizeException_sanitized (e : Option Exception) :
    ExceptionSanitized (sanitizeException e) := by
  intro ex hex frame hframe
  cases e with
  | none => simp [sanitizeException] at hex
  | some e0 =>
    simp only [sanitizeException, Option.some.injEq] at hex
    subst hex
    obtain ⟨f0, -, rfl⟩ := List.mem_map.mp hframe
    exact sanitizeContext_chain f0.context

/-! ## C1: every Log Context is sanitized -/

/-- C1: when `sanitizeBlock b` returns the record `b'`, every Log Context of
`b'` (under any Stack Frame of the Exception of any Transaction Trace, of any
of its Action Traces, of its Failed Sub-transaction Trace, or of any Action
Trace of the latter, at every depth of the parent chain) has line 666, thread
name "thread" and the fixed sentinel timestamp. -/
theorem sanitizeBlock_contexts_sanitized (b b' : Block) (h : sanitizeBlock b = .ok b') :
    ContextsSanitized b' := by
  obtain ⟨ops, traces, -, htraces, rfl⟩ := sanitizeBlock_ok b b' h
  intro t' ht'
  obtain ⟨t, -, ht⟩ := forall₂_mem_right (forEach_ok_forall₂ _ _ _ htraces) t' ht'
  obtain ⟨tops, -, rfl⟩ := sanitizeTrxTrace_ok t t' ht
  refine ⟨sanitizeException_sanitized _, ?_, ?_⟩
  · intro a ha
    obtain ⟨a0, -, rfl⟩ := List.mem_map.mp ha
    exact sanitizeException_sanitized _
  · intro d hd
    cases hf : t.failedDtrxTrace with
    | none => simp [hf, sanitizeFailedDtrxTrace] at hd
    | some d0 =>
      simp only [hf, sanitizeFailedDtrxTrace, Option.some.injEq] at hd
      subst hd
      refine ⟨sanitizeException_sanitized _, ?_⟩
      intro a ha
      obtain ⟨a0, -, rfl⟩ := List.mem_map.mp ha
      exact sanitizeException_sanitized _

/-- C1 at the sample block, whose deepest parent chain has depth 5. -/
theorem sanitizeBlock_contexts_sanitized_witness :
    ∃ b', sanitizeBlock sampleBlock = .ok b' ∧ ContextsSanitized b' :=
  ⟨_, rfl, sanitizeBlock_contexts_sanitized sampleBlock _ rfl⟩

/-! ## C2: records that differ in volatile values only -/

theorem sanitizeContext_scrub (c : LogContext) :
    sanitizeContext (scrubContext c) = sanitizeContext c := by
  induction c with
  | absent => rfl
  | node l th ts p ih => simp only [scrubContext, sanitizeContext, ih]

theorem sanitizeException_scrub (e : Option Exception) :
    sanitizeException (scrubException e) = sanitizeException e := by
  cases e with
  | none => rfl
  | some e0 =>
    simp only [scrubException, Option.map_some', sanitizeException, List.map_map,
      Option.some.injEq, Exception.mk.injEq]
    apply List.map_congr_left
    intro f _
    simp only [Function.comp, sanitizeContext_scrub]

theorem sanitizeRLimitOp_scrub (op : RlimitOp) :
    sanitizeRLimitOp (scrubRlimitOp op) = sanitizeRLimitOp op := by
  obtain ⟨kind⟩ := op
  cases kind with
  | accountUsage v =>
    obtain ⟨cpu, net⟩ := v
    cases cpu <;> cases net <;> rfl
  | state v =>
    obtain ⟨cpu, net⟩ := v
    cases cpu <;> cases net <;> rfl
  | other tag => rfl

theorem forEach_map {α : Type} (body : α → Except Panic α) (g : α → α)
    (h : ∀ x, body (g x) = body x) : ∀ xs : List α, forEach body (xs.map g) = forEach body xs
  | [] => rfl
  | x :: xs => by
    simp only [List.map_cons, forEach, h x, forEach_map body g h xs]

theorem sanitizePermOp_scrub (p : PermOp) : sanitizePermOp (scrubPermOp p) = sanitizePermOp p := by
  obtain ⟨o, n⟩ := p
  cases o <;> cases n <;> rfl

theorem sanitizeActionTrace_scrub (a : ActionTrace) :
    sanitizeActionTrace (scrubActionTrace a) = sanitizeActionTrace a := by
  simp only [sanitizeActionTrace, scrubActionTrace, sanitizeException_scrub]

theorem sanitizeFailedDtrxTrace_scrub (d : Option FailedDtrxTrace) :
    sanitizeFailedDtrxTrace (scrubFailedContexts d) = sanitizeFailedDtrxTrace d := by
  cases d with
  | none => rfl
  | some d0 =>
    simp only [scrubFailedContexts, Option.map_some', sanitizeFailedDtrxTrace,
      sanitizeException_scrub, List.map_map, Option.some.injEq, FailedDtrxTrace.mk.injEq,
      true_and]
    apply List.map_congr_left
    intro a _
    simp only [Function.comp, sanitizeException_scrub]

theorem sanitizeTrxTrace_scrub (t : TransactionTrace) :
    sanitizeTrxTrace (scrubTrxTrace scrubFailedContexts t) = sanitizeTrxTrace t := by
  have hperm : (t.permOps.map scrubPermOp).map sanitizePermOp = t.permOps.map sanitizePermOp := by
    rw [List.map_map]
    apply List.map_congr_left
    intro p _
    simp only [Function.comp, sanitizePermOp_scrub]
  have hact : (t.actionTraces.map scrubActionTrace).map sanitizeActionTrace
      = t.actionTraces.map sanitizeActionTrace := by
    rw [List.map_map]
    apply List.map_congr_left
    intro a _
    simp only [Function.comp, sanitizeActionTrace_scrub]
  simp only [sanitizeTrxTrace, scrubTrxTrace, forEach_map _ _ sanitizeRLimitOp_scrub,
    sanitizeException_scrub, sanitizeFailedDtrxTrace_scrub, hperm, hact]

theorem sanitizeBlock_scrub (b : Block) :
    sanitizeBlock (scrubBlockWith scrubFailedContexts b) = sanitizeBlock b := by
  simp only [sanitizeBlock, scrubBlockWith, forEach_map _ _ sanitizeRLimitOp_scrub,
    forEach_map _ _ sanitizeTrxTrace_scrub]

/-- Determinism of `sanitizeBlock` over the fields it assigns: two records that
are identical except for last ordinals, the elapsed-times of top-level
Transaction Traces and their Action Traces, permission timestamps and Log
Context line numbers, thread names and timestamps have the same result. -/
theorem sanitizeBlock_same_up_to_assigned (x y : Block) (h : SameUpToAssigned x y) :
    sanitizeBlock x = sanitizeBlock y := by
  rw [← sanitizeBlock_scrub x, ← sanitizeBlock_scrub y]
  exact congrArg sanitizeBlock h

/-- C2: two records that are identical except for the elapsed-time of their
Failed Sub-transaction Trace, 52 in one and 53 in the other, are sanitized to
different records: each keeps its own value. -/
theorem sanitizeBlock_keeps_failed_elapsed :
    SameUpToVolatile (failedElapsedBlock 52) (failedElapsedBlock 53) ∧
    sanitizeBlock (failedElapsedBlock 52) ≠ sanitizeBlock (failedElapsedBlock 53) ∧
    sanitizeBlock (failedElapsedBlock 52)
      = .ok { failedElapsedBlock 52 with
              unfilteredTransactionTraces :=
                [{ elapsed := 888, exception := none, permOps := [], rlimitOps := []
                   actionTraces := [], failedDtrxTrace := some ⟨52, none, []⟩ }] } ∧
    sanitizeBlock (failedElapsedBlock 53)
      = .ok { failedElapsedBlock 53 with
              unfilteredTransactionTraces :=
                [{ elapsed := 888, exception := none, permOps := [], rlimitOps := []
                   actionTraces := [], failedDtrxTrace := some ⟨53, none, []⟩ }] } := by
  refine ⟨rfl, ?_, rfl, rfl⟩
  intro h
  have h2 : (⟨"#4 (00000004c3)", [], [⟨888, none, [], [], [], some ⟨52, none, []⟩⟩]⟩ : Block)
      = ⟨"#4 (00000004c3)", [], [⟨888, none, [], [], [], some ⟨53, none, []⟩⟩]⟩ :=
    Except.ok.inj h
  revert h2
  decide

/-! ## C3: where `sanitizeBlock` returns -/

theorem setLastOrdinal_ok (p p' : Option UsageAccumulator) (n : Nat)
    (h : setLastOrdinal p n = .ok p') :
    ∃ acc, p = some acc ∧ p' = some { acc with lastOrdinal := n } := by
  cases p with
  | none => simp [setLastOrdinal] at h
  | some acc =>
    simp only [setLastOrdinal, Except.ok.injEq] at h
    exact ⟨acc, rfl, h.symm⟩

theorem sanitizeRLimitOp_returns_iff (op : RlimitOp) :
    (∃ op', sanitizeRLimitOp op = .ok op') ↔ op.countersPresent = true := by
  obtain ⟨kind⟩ := op
  cases kind with
  | accountUsage v =>
    obtain ⟨cpu, net⟩ := v
    cases cpu <;> cases net <;>
      simp [sanitizeRLimitOp, setLastOrdinal, RlimitOp.countersPresent, bind, Except.bind,
        pure, Except.pure]
  | state v =>
    obtain ⟨cpu, net⟩ := v
    cases cpu <;> cases net <;>
      simp [sanitizeRLimitOp, setLastOrdinal, RlimitOp.countersPresent, bind, Except.bind,
        pure, Except.pure]
  | other tag => simp [sanitizeRLimitOp, RlimitOp.countersPresent, pure, Except.pure]

theorem forEach_returns_iff {α : Type} (body : α → Except Panic α) (xs : List α) :
    (∃ ys, forEach body xs = .ok ys) ↔ ∀ x ∈ xs, ∃ y, body x = .ok y := by
  induction xs with
  | nil => simp [forEach]
  | cons x xs ih =>
    constructor
    · rintro ⟨ys, h⟩
      have h2 := forEach_ok_forall₂ body _ _ h
      cases h2 with
      | cons hx hxs =>
        intro z hz
        rcases List.mem_cons.mp hz with rfl | hz
        · exact ⟨_, hx⟩
        · exact ih.mp ⟨_, forEach_of_forall₂ body _ _ hxs⟩ z hz
    · intro h
      obtain ⟨y, hy⟩ := h x (List.mem_cons_self _ _)
      obtain ⟨ys, hys⟩ := ih.mpr fun z hz => h z (List.mem_cons_of_mem _ hz)
      exact ⟨y :: ys, by simp only [forEach, bind, Except.bind, pure, Except.pure, hy, hys]⟩

theorem sanitizeTrxTrace_returns_iff (t : TransactionTrace) :
    (∃ t', sanitizeTrxTrace t = .ok t') ↔ t.rlimitOps.all RlimitOp.countersPresent = true := by
  rw [List.all_eq_true]
  constructor
  · rintro ⟨t', h⟩
    obtain ⟨ops, hops, -⟩ := sanitizeTrxTrace_ok t t' h
    intro x hx
    exact (sanitizeRLimitOp_returns_iff x).mp ((forEach_returns_iff _ _).mp ⟨ops, hops⟩ x hx)
  · intro h
    obtain ⟨ops, hops⟩ := (forEach_returns_iff sanitizeRLimitOp t.rlimitOps).mpr
      fun x hx => (sanitizeRLimitOp_returns_iff x).mpr (h x hx)
    exact ⟨_, by simp only [sanitizeTrxTrace, bind, Except.bind, pure, Except.pure, hops]; rfl⟩

/-- `sanitizeBlock` returns exactly on the records in which every usage counter
it writes through is present; on the others it panics. -/
theorem sanitizeBlock_returns_iff (b : Block) :
    (∃ b', sanitizeBlock b = .ok b') ↔ b.countersPresent = true := by
  simp only [Block.countersPresent, Bool.and_eq_true, List.all_eq_true]
  constructor
  · rintro ⟨b', h⟩
    obtain ⟨ops, traces, hops, htraces, -⟩ := sanitizeBlock_ok b b' h
    refine ⟨fun x hx => ?_, fun t ht => ?_⟩
    · exact (sanitizeRLimitOp_returns_iff x).mp ((forEach_returns_iff _ _).mp ⟨ops, hops⟩ x hx)
    · have := (sanitizeTrxTrace_returns_iff t).mp
        ((forEach_returns_iff _ _).mp ⟨traces, htraces⟩ t ht)
      exact List.all_eq_true.mp this
  · rintro ⟨h1, h2⟩
    obtain ⟨ops, hops⟩ := (forEach_returns_iff sanitizeRLimitOp b.rlimitOps).mpr
      fun x hx => (sanitizeRLimitOp_returns_iff x).mpr (h1 x hx)
    obtain ⟨traces, htraces⟩ :=
      (forEach_returns_iff sanitizeTrxTrace b.unfilteredTransactionTraces).mpr
        fun t ht => (sanitizeTrxTrace_returns_iff t).mpr (List.all_eq_true.mpr (h2 t ht))
    exact ⟨_, by simp only [sanitizeBlock, bind, Except.bind, pure, Except.pure, hops, htraces]; rfl⟩

/-- C3: on the block record whose single Resource-Limit Operation is tagged
Account Usage and has no CPU-usage counter, `sanitizeBlock` does not return:
it panics with a nil dereference. -/
theorem sanitizeBlock_panics_on_absent_counter :
    sanitizeBlock blockNoCpu = .error .nilDereference := rfl

/-! ## C4: idempotence -/

theorem sanitizeContext_idem (c : LogContext) :
    sanitizeContext (sanitizeContext c) = sanitizeContext c := by
  induction c with
  | absent => rfl
  | node l th ts p ih => simp only [sanitizeContext, ih]

theorem sanitizeException_idem (e : Option Exception) :
    sanitizeException (sanitizeException e) = sanitizeException e := by
  cases e with
  | none => rfl
  | some e0 =>
    simp only [sanitizeException, List.map_map, Option.some.injEq, Exception.mk.injEq]
    apply List.map_congr_left
    intro f _
    simp only [Function.comp, sanitizeContext_idem]

theorem sanitizePermOp_idem (p : PermOp) : sanitizePermOp (sanitizePermOp p) = sanitizePermOp p := by
  obtain ⟨o, n⟩ := p
  cases o <;> cases n <;> rfl

theorem sanitizeActionTrace_idem (a : ActionTrace) :
    sanitizeActionTrace (sanitizeActionTrace a) = sanitizeActionTrace a := by
  simp only [sanitizeActionTrace, sanitizeException_idem]

theorem sanitizeFailedDtrxTrace_idem (d : Option FailedDtrxTrace) :
    sanitizeFailedDtrxTrace (sanitizeFailedDtrxTrace d) = sanitizeFailedDtrxTrace d := by
  cases d with
  | none => rfl
  | some d0 =>
    simp only [sanitizeFailedDtrxTrace, sanitizeException_idem, List.map_map, Option.some.injEq,
      FailedDtrxTrace.mk.injEq, true_and]
    apply List.map_congr_left
    intro a _
    simp only [Function.comp, sanitizeException_idem]

theorem sanitizeRLimitOp_idem (op op' : RlimitOp) (h : sanitizeRLimitOp op = .ok op') :
    sanitizeRLimitOp op' = .ok op' := by
  obtain ⟨kind⟩ := op
  cases kind with
  | accountUsage v =>
    obtain ⟨cpu, net⟩ := v
    cases cpu <;> cases net <;>
      simp [sanitizeRLimitOp, setLastOrdinal, bind, Except.bind, pure, Except.pure] at h
    subst h
    rfl
  | state v =>
    obtain ⟨cpu, net⟩ := v
    cases cpu <;> cases net <;>
      simp [sanitizeRLimitOp, setLastOrdinal, bind, Except.bind, pure, Except.pure] at h
    subst h
    rfl
  | other tag =>
    simp only [sanitizeRLimitOp, pure, Except.pure, Except.ok.injEq] at h
    subst h
    rfl

theorem forEach_fixed {α : Type} (body : α → Except Panic α) :
    ∀ ys : List α, (∀ y ∈ ys, body y = .ok y) → forEach body ys = .ok ys
  | [], _ => rfl
  | y :: ys, h => by
    simp only [forEach, bind, Except.bind, pure, Except.pure, h y (List.mem_cons_self _ _),
      forEach_fixed body ys fun z hz => h z (List.mem_cons_of_mem _ hz)]

theorem forEach_idem {α : Type} (body : α → Except Panic α)
    (hbody : ∀ x y, body x = .ok y → body y = .ok y) (xs ys : List α)
    (h : forEach body xs = .ok ys) : forEach body ys = .ok ys := by
  apply forEach_fixed
  intro y hy
  obtain ⟨x, -, hx⟩ := forall₂_mem_right (forEach_ok_forall₂ body xs ys h) y hy
  exact hbody x y hx

theorem sanitizeTrxTrace_idem (t t' : TransactionTrace) (h : sanitizeTrxTrace t = .ok t') :
    sanitizeTrxTrace t' = .ok t' := by
  obtain ⟨ops, hops, rfl⟩ := sanitizeTrxTrace_ok t t' h
  have hops' := forEach_idem sanitizeRLimitOp sanitizeRLimitOp_idem _ _ hops
  simp only [sanitizeTrxTrace, bind, Except.bind, pure, Except.pure, hops',
    sanitizeException_idem, sanitizeFailedDtrxTrace_idem, List.map_map, Except.ok.injEq,
    TransactionTrace.mk.injEq, true_and]
  refine ⟨?_, ?_, trivial⟩
  · apply List.map_congr_left
    intro p _
    simp only [Function.comp, sanitizePermOp_idem]
  · apply List.map_congr_left
    intro a _
    simp only [Function.comp, sanitizeActionTrace_idem]

theorem sanitizeBlock_fixed (b b' : Block) (h : sanitizeBlock b = .ok b') :
    sanitizeBlock b' = .ok b' := by
  obtain ⟨ops, traces, hops, htraces, rfl⟩ := sanitizeBlock_ok b b' h
  have hops' := forEach_idem sanitizeRLimitOp sanitizeRLimitOp_idem _ _ hops
  have htraces' := forEach_idem sanitizeTrxTrace sanitizeTrxTrace_idem _ _ htraces
  simp only [sanitizeBlock, bind, Except.bind, pure, Except.pure, hops', htraces']

/-- C4: sanitizing the result of `sanitizeBlock` again is the same as
sanitizing once: `sanitizeBlock (sanitizeBlock x) = sanitizeBlock x`, the second
call taking the record the first one returns. -/
theorem sanitizeBlock_idempotent (x : Block) :
    (sanitizeBlock x >>= sanitizeBlock) = sanitizeBlock x := by
  cases h : sanitizeBlock x with
  | error e => rfl
  | ok b' =>
    show sanitizeBlock b' = .ok b'
    exact sanitizeBlock_fixed x b' h

/-! ## C5: the last ordinals of the Resource-Limit Operations -/

theorem sanitizeRLimitOp_sanitized (op op' : RlimitOp) (h : sanitizeRLimitOp op = .ok op') :
    RlimitSanitized op op' := by
  obtain ⟨kind⟩ := op
  cases kind with
  | accountUsage v =>
    obtain ⟨cpu, net⟩ := v
    cases cpu <;> cases net <;>
      simp [sanitizeRLimitOp, setLastOrdinal, bind, Except.bind, pure, Except.pure] at h
    subst h
    exact ⟨_, rfl, rfl, rfl⟩
  | state v =>
    obtain ⟨cpu, net⟩ := v
    cases cpu <;> cases net <;>
      simp [sanitizeRLimitOp, setLastOrdinal, bind, Except.bind, pure, Except.pure] at h
    subst h
    exact ⟨_, rfl, rfl, rfl⟩
  | other tag =>
    simp only [sanitizeRLimitOp, pure, Except.pure, Except.ok.injEq] at h
    exact h.symm

theorem forEach_rlimit_sanitized (ops ops' : List RlimitOp)
    (h : forEach sanitizeRLimitOp ops = .ok ops') : List.Forall₂ RlimitSanitized ops ops' :=
  (forEach_ok_forall₂ _ _ _ h).imp fun {op op'} hop => sanitizeRLimitOp_sanitized op op' hop

/-- C5: when `sanitizeBlock b` returns `b'`, the Resource-Limit Operations of
the block's top-level list and of each Transaction Trace's own list correspond
position by position to those of `b`, and whatever the prior ordinals: an
operation tagged Account Usage has CPU-usage last ordinal 111 and network-usage
last ordinal 222, one tagged State has average-block CPU-usage last ordinal 333
and average-block network-usage last ordinal 444, and one of neither tag is
unchanged. -/
theorem sanitizeBlock_rlimit_ops (b b' : Block) (h : sanitizeBlock b = .ok b') :
    List.Forall₂ RlimitSanitized b.rlimitOps b'.rlimitOps ∧
    List.Forall₂ (fun t t' => List.Forall₂ RlimitSanitized t.rlimitOps t'.rlimitOps)
      b.unfilteredTransactionTraces b'.unfilteredTransactionTraces := by
  obtain ⟨ops, traces, hops, htraces, rfl⟩ := sanitizeBlock_ok b b' h
  refine ⟨forEach_rlimit_sanitized _ _ hops, ?_⟩
  refine (forEach_ok_forall₂ _ _ _ htraces).imp ?_
  intro t t' ht
  obtain ⟨tops, htops, rfl⟩ := sanitizeTrxTrace_ok t t' ht
  exact forEach_rlimit_sanitized _ _ htops

/-- C5 at the sample block, whose Account Usage operation has CPU ordinal 5 and
network ordinal 9. -/
theorem sanitizeBlock_rlimit_ops_witness :
    ∃ b', sanitizeBlock sampleBlock = .ok b' ∧
      List.Forall₂ RlimitSanitized sampleBlock.rlimitOps b'.rlimitOps ∧
      List.Forall₂ (fun t t' => List.Forall₂ RlimitSanitized t.rlimitOps t'.rlimitOps)
        sampleBlock.unfilteredTransactionTraces b'.unfilteredTransactionTraces :=
  ⟨_, rfl, sanitizeBlock_rlimit_ops sampleBlock _ rfl⟩

/-! ## C10: elapsed times -/

/-- C10: when `sanitizeBlock b` returns `b'`, the Transaction Traces of `b'`
correspond position by position to those of `b`, each has elapsed-time 888,
and each keeps the number of its Action Traces, every one of which has
elapsed-time 999. -/
theorem sanitizeBlock_elapsed (b b' : Block) (h : sanitizeBlock b = .ok b') :
    List.Forall₂
      (fun t t' => t'.elapsed = 888 ∧ t'.actionTraces.length = t.actionTraces.length ∧
        ∀ a ∈ t'.actionTraces, a.elapsed = 999)
      b.unfilteredTransactionTraces b'.unfilteredTransactionTraces := by
  obtain ⟨ops, traces, -, htraces, rfl⟩ := sanitizeBlock_ok b b' h
  refine (forEach_ok_forall₂ _ _ _ htraces).imp ?_
  intro t t' ht
  obtain ⟨tops, -, rfl⟩ := sanitizeTrxTrace_ok t t' ht
  refine ⟨rfl, List.length_map _ _, ?_⟩
  intro a ha
  obtain ⟨a0, -, rfl⟩ := List.mem_map.mp ha
  rfl

/-- C10 at the sample block, whose traces have elapsed-times 1734 and 5 and
Action Traces with elapsed-times 31, 47 and 6. -/
theorem sanitizeBlock_elapsed_witness :
    ∃ b', sanitizeBlock sampleBlock = .ok b' ∧
      List.Forall₂
        (fun t t' => t'.elapsed = 888 ∧ t'.actionTraces.length = t.actionTraces.length ∧
          ∀ a ∈ t'.actionTraces, a.elapsed = 999)
        sampleBlock.unfilteredTransactionTraces b'.unfilteredTransactionTraces :=
  ⟨_, rfl, sanitizeBlock_elapsed sampleBlock _ rfl⟩

/-! ## The read loop -/

theorem readIteration_absent (env : ReadEnv) (filePath : String) (s : ReadState) (el : Item)
    (err : Option ReadErr) (hread : env.read s.reads = ⟨el, err⟩)
    (hel : el = .nil ∨ el = .block none) :
    readIteration env filePath s = checkErr filePath err { s with reads := s.reads + 1 } := by
  rcases hel with rfl | rfl <;>
    simp [readIteration, hread, isBlockItem, assertBlock, pure, Except.pure, bind, Except.bind]

theorem readIteration_block (env : ReadEnv) (filePath : String) (s : ReadState) (b b' : Block)
    (err : Option ReadErr) (hread : env.read s.reads = ⟨.block (some b), err⟩)
    (hb : sanitizeBlock b = .ok b') :
    readIteration env filePath s = checkErr filePath err
      ⟨s.reads + 1, some b', s.blocks ++ [b'], s.stdout ++ [parsedBlockPrint b'.AsRef]⟩ := by
  simp [readIteration, hread, isBlockItem, assertBlock, assertBlockOk, ensure, hb, pure,
    Except.pure, bind, Except.bind, parsedBlockPrint]

theorem forEach_cons_ok {α : Type} (body : α → Except Panic α) (x : α) (xs ys : List α)
    (h : forEach body (x :: xs) = .ok ys) :
    ∃ y ys', body x = .ok y ∧ forEach body xs = .ok ys' ∧ ys = y :: ys' := by
  have h2 := forEach_ok_forall₂ body _ _ h
  cases h2 with
  | cons hx hxs => exact ⟨_, _, hx, forEach_of_forall₂ body _ _ hxs, rfl⟩

theorem readLoop_quiet_reads (env : ReadEnv) (filePath : String) :
    ∀ (items : List Item) (s : ReadState) (bs' : List Block) (fuel : Nat),
      (∀ i it, items[i]? = some it → env.read (s.reads + i) = ⟨it, none⟩) →
      (∀ name, Item.foreign name ∉ items) →
      forEach sanitizeBlock (blocksOf items) = .ok bs' →
      readLoop env filePath (items.length + fuel) s
        = readLoop env filePath fuel
            ⟨s.reads + items.length, (s.lastBlockRead.toList ++ bs').getLast?, s.blocks ++ bs',
              s.stdout ++ bs'.map fun b => parsedBlockPrint b.AsRef⟩
  | [], s, bs', fuel, _, _, hs => by
    simp only [blocksOf, List.filterMap_nil, forEach, Except.ok.injEq] at hs
    subst hs
    obtain ⟨r, l, bl, out⟩ := s
    cases l <;> simp
  | it :: rest, s, bs', fuel, hr, hf, hs => by
    have h0 : env.read s.reads = ⟨it, none⟩ := by simpa using hr 0 it (by simp)
    have hrest : ∀ i it', rest[i]? = some it' → env.read (s.reads + 1 + i) = ⟨it', none⟩ := by
      intro i it' hi
      have := hr (i + 1) it' (by simpa using hi)
      rw [← this]
      congr 1
      omega
    have hfrest : ∀ name, Item.foreign name ∉ rest :=
      fun name hm => hf name (List.mem_cons_of_mem _ hm)
    rw [show (it :: rest).length + fuel = (rest.length + fuel) + 1 by
      simp only [List.length_cons]; omega]
    cases hit : blockOfItem it with
    | none =>
      have hel : it = .nil ∨ it = .block none := by
        cases it with
        | nil => exact Or.inl rfl
        | block p =>
          cases p with
          | none => exact Or.inr rfl
          | some b => simp [blockOfItem] at hit
        | foreign name => exact absurd (List.mem_cons_self _ _) (hf name)
      have hs' : forEach sanitizeBlock (blocksOf rest) = .ok bs' := by
        simpa [blocksOf, List.filterMap_cons, hit] using hs
      simp only [readLoop, readIteration_absent env filePath s it none h0 hel, checkErr]
      rw [readLoop_quiet_reads env filePath rest _ bs' fuel hrest hfrest hs']
      simp only [List.length_cons]
      congr 2
      omega
    | some b =>
      have hitb : it = .block (some b) := by
        cases it with
        | nil => simp [blockOfItem] at hit
        | block p =>
          cases p with
          | none => simp [blockOfItem] at hit
          | some b0 =>
            simp only [blockOfItem, Option.some.injEq] at hit
            rw [hit]
        | foreign name => simp [blockOfItem] at hit
      have hs1 : forEach sanitizeBlock (b :: blocksOf rest) = .ok bs' := by
        simpa [blocksOf, List.filterMap_cons, hit] using hs
      obtain ⟨b', bs'', hb, hs', rfl⟩ := forEach_cons_ok _ _ _ _ hs1
      rw [hitb] at h0
      simp only [readLoop, readIteration_block env filePath s b b' none h0 hb, checkErr]
      rw [readLoop_quiet_reads env filePath rest _ bs'' fuel hrest hfrest hs']
      simp only [List.length_cons, List.map_cons, List.append_assoc, List.singleton_append,
        Option.toList]
      congr 2
      · omega
      · cases s.lastBlockRead <;> simp [List.getLast?_cons_cons, List.getLast?_append]

theorem readIteration_foreign (env : ReadEnv) (filePath : String) (s : ReadState)
    (name : String) (err : Option ReadErr) (hread : env.read s.reads = ⟨.foreign name, err⟩) :
    readIteration env filePath s = .stop ⟨s.stdout, s.reads + 1, .panicked .interfaceConversion⟩ := by
  simp [readIteration, hread, isBlockItem, assertBlock, bind, Except.bind]

theorem forEach_refs (bs bs' : List Block) (h : forEach sanitizeBlock bs = .ok bs') :
    bs'.map Block.AsRef = bs.map Block.AsRef := by
  have h2 := forEach_ok_forall₂ _ _ _ h
  induction h2 with
  | nil => rfl
  | cons hx _ ih =>
    obtain ⟨ops, traces, -, -, rfl⟩ := sanitizeBlock_ok _ _ hx
    simp only [List.map_cons, Block.AsRef, List.cons.injEq, true_and]
    exact ih (forEach_of_forall₂ _ _ _ ‹_›)

theorem blocksOf_blocks (bs : List Block) :
    blocksOf (bs.map fun b => Item.block (some b)) = bs := by
  induction bs with
  | nil => rfl
  | cons b bs ih =>
    simp only [blocksOf, List.map_cons, List.filterMap_cons, blockOfItem] at ih ⊢
    rw [ih]

/-! ## C8: a fatal read error after n valid records -/

/-- C8: on a stream whose first n calls return the Block Records `bs`, each
without error and each valid (every usage counter that `sanitizeBlock` writes
through is present), and whose next call returns no item and an error other
than end-of-stream, `readActualBlocks` (given fuel for n + 1 passes) prints one
"Parsed block" line per record, in order, then the failure message, and exits
with code 1 after exactly n + 1 reads, returning nothing.  The failure message
carries the reference of the n-th record when there is one, and is the "Unable
to read first block" message when n = 0. -/
theorem readActualBlocks_fatal_error (env : ReadEnv) (filePath : String) (bs : List Block)
    (text : String) (fuel : Nat)
    (hopen : env.openErr = none) (hreader : env.readerErr = none)
    (hvalid : ∀ b ∈ bs, b.countersPresent = true)
    (hreads : ∀ i b, bs[i]? = some b → env.read i = ⟨.block (some b), none⟩)
    (herr : env.read bs.length = ⟨.nil, some (.failure text)⟩)
    (hfuel : bs.length < fuel) :
    readActualBlocks env filePath fuel
      = some ⟨bs.map (fun b => parsedBlockPrint b.AsRef)
                ++ [readFailurePrint filePath text (bs.getLast?.map Block.AsRef)],
              bs.length + 1, .exited 1⟩ := by
  obtain ⟨bs', hs⟩ := (forEach_returns_iff sanitizeBlock bs).mpr
    fun b hb => (sanitizeBlock_returns_iff b).mpr (hvalid b hb)
  have hrefs := forEach_refs bs bs' hs
  obtain ⟨k, rfl⟩ : ∃ k, fuel = (bs.map fun b => Item.block (some b)).length + (k + 1) :=
    ⟨fuel - bs.length - 1, by simp only [List.length_map]; omega⟩
  have hquiet := readLoop_quiet_reads env filePath (bs.map fun b => Item.block (some b))
    ⟨0, none, [], []⟩ bs' (k + 1)
    (by
      intro i it hi
      simp only [List.getElem?_map, Option.map_eq_some'] at hi
      obtain ⟨b, hb, rfl⟩ := hi
      simpa using hreads i b hb)
    (by
      intro name hm
      simp at hm)
    (by rw [blocksOf_blocks]; exact hs)
  simp only [readActualBlocks, hopen, hreader, noError]
  rw [hquiet]
  simp only [List.length_map, Nat.zero_add, Option.toList, List.nil_append]
  have hlast : bs'.getLast?.map Block.AsRef = bs.getLast?.map Block.AsRef := by
    rw [← List.getLast?_map, ← List.getLast?_map, hrefs]
  have hprints : (bs'.map fun b => parsedBlockPrint b.AsRef)
      = bs.map fun b => parsedBlockPrint b.AsRef := by
    have := congrArg (List.map parsedBlockPrint) hrefs
    simpa [List.map_map, Function.comp] using this
  rw [readLoop, readIteration_absent env filePath _ .nil (some (.failure text)) herr (Or.inl rfl)]
  rw [← hlast, hprints]
  cases hl : bs'.getLast? with
  | none => simp [checkErr, hl, noError, quit, readFailurePrint, String.append_assoc]
  | some last => simp [checkErr, hl, noError, quit, readFailurePrint, String.append_assoc]

/-- C8 at a stream of two valid records followed by a fatal error. -/
theorem readActualBlocks_fatal_error_witness :
    readActualBlocks fatalEnv "actual.dmlog" 5
      = some ⟨[sampleBlock, sampleBlock2].map (fun b => parsedBlockPrint b.AsRef)
                ++ [readFailurePrint "actual.dmlog" "unexpected line"
                      ([sampleBlock, sampleBlock2].getLast?.map Block.AsRef)],
              [sampleBlock, sampleBlock2].length + 1, .exited 1⟩ :=
  readActualBlocks_fatal_error fatalEnv "actual.dmlog" [sampleBlock, sampleBlock2]
    "unexpected line" 5 rfl rfl (by decide)
    (by
      intro i b h
      rcases i with _ | _ | i
      · simp only [List.getElem?_cons_zero, Option.some.injEq] at h
        subst h
        rfl
      · simp only [List.getElem?_cons_succ, List.getElem?_cons_zero, Option.some.injEq] at h
        subst h
        rfl
      · simp at h)
    rfl (by decide)

/-! ## C6: a stream ended by end-of-stream -/

theorem forEach_append_ok {α : Type} (body : α → Except Panic α) :
    ∀ (xs ys zs : List α), forEach body (xs ++ ys) = .ok zs →
      ∃ xs' ys', forEach body xs = .ok xs' ∧ forEach body ys = .ok ys' ∧ zs = xs' ++ ys'
  | [], ys, zs, h => ⟨[], zs, rfl, h, rfl⟩
  | x :: xs, ys, zs, h => by
    obtain ⟨x', zs', hx, hrest, rfl⟩ := forEach_cons_ok body x (xs ++ ys) zs h
    obtain ⟨xs', ys', hxs, hys, rfl⟩ := forEach_append_ok body xs ys zs' hrest
    exact ⟨x' :: xs', ys', by simp only [forEach, bind, Except.bind, pure, Except.pure, hx, hxs],
      hys, rfl⟩

/-- On a stream of items without error, none of another type than
`*pbcodec.Block`, ended by a call that returns end-of-stream, and when
`sanitizeBlock` returns on each Block Record: `readActualBlocks` returns the
sanitized records in stream order, after one "Parsed block" print for each, and
makes no call after the one that returned end-of-stream. -/
theorem readActualBlocks_end_of_stream (env : ReadEnv) (filePath : String) (items : List Item)
    (last : Item) (bs' : List Block) (fuel : Nat)
    (hopen : env.openErr = none) (hreader : env.readerErr = none)
    (hreads : ∀ i it, items[i]? = some it → env.read i = ⟨it, none⟩)
    (heof : env.read items.length = ⟨last, some .eof⟩)
    (hkinds : ∀ name, Item.foreign name ∉ items ++ [last])
    (hs : forEach sanitizeBlock (blocksOf (items ++ [last])) = .ok bs')
    (hfuel : items.length < fuel) :
    readActualBlocks env filePath fuel
      = some ⟨bs'.map (fun b => parsedBlockPrint b.AsRef), items.length + 1, .returned bs'⟩ := by
  have hsplit : blocksOf (items ++ [last]) = blocksOf items ++ blocksOf [last] := by
    simp only [blocksOf, List.filterMap_append]
  rw [hsplit] at hs
  obtain ⟨xs', ys', hxs, hys, rfl⟩ := forEach_append_ok _ _ _ _ hs
  obtain ⟨k, rfl⟩ : ∃ k, fuel = items.length + (k + 1) := ⟨fuel - items.length - 1, by omega⟩
  have hquiet := readLoop_quiet_reads env filePath items ⟨0, none, [], []⟩ xs' (k + 1)
    (by intro i it hi; simpa using hreads i it hi)
    (fun name hm => hkinds name (List.mem_append_left _ hm)) hxs
  simp only [readActualBlocks, hopen, hreader, noError]
  rw [hquiet]
  simp only [Nat.zero_add, Option.toList, List.nil_append]
  cases hl : blockOfItem last with
  | none =>
    have hel : last = .nil ∨ last = .block none := by
      cases last with
      | nil => exact Or.inl rfl
      | block p =>
        cases p with
        | none => exact Or.inr rfl
        | some b => simp [blockOfItem] at hl
      | foreign name =>
        exact absurd (List.mem_append_right _ (List.mem_singleton_self _)) (hkinds name)
    have hys' : ys' = [] := by
      simpa [blocksOf, List.filterMap_cons, hl, forEach] using hys.symm
    subst hys'
    rw [readLoop, readIteration_absent env filePath _ last (some .eof) heof hel]
    simp [checkErr]
  | some b =>
    have hlb : last = .block (some b) := by
      cases last with
      | nil => simp [blockOfItem] at hl
      | block p =>
        cases p with
        | none => simp [blockOfItem] at hl
        | some b0 =>
          simp only [blockOfItem, Option.some.injEq] at hl
          rw [hl]
      | foreign name => simp [blockOfItem] at hl
    have hys1 : forEach sanitizeBlock [b] = .ok ys' := by
      simpa [blocksOf, List.filterMap_cons, hl] using hys
    obtain ⟨b', rest, hb, hrest, rfl⟩ := forEach_cons_ok _ _ _ _ hys1
    simp only [forEach, Except.ok.injEq] at hrest
    subst hrest
    rw [hlb] at heof
    rw [readLoop, readIteration_block env filePath _ b b' (some .eof) heof hb]
    simp [checkErr]

/-- C6: on the stream whose first call returns, without error, the Block
Record with an absent CPU-usage counter and whose second call returns
end-of-stream, `readActualBlocks` does not return: it panics in the first pass,
after one read and before any print. -/
theorem readActualBlocks_panics_on_absent_counter :
    readActualBlocks noCpuEnv "actual.dmlog" 2 = some ⟨[], 1, .panicked .nilDereference⟩ := by
  decide

/-! ## C7: an item that is not a Block Record -/

/-- C7: on the stream whose first call returns a non-nil item of a type other
than `*pbcodec.Block`, `readActualBlocks` panics on the type assertion of line
93: nothing is printed and the process does not exit through `quit`. -/
theorem readActualBlocks_panics_on_foreign_item :
    readActualBlocks foreignEnv "actual.dmlog" 2 = some ⟨[], 1, .panicked .interfaceConversion⟩ := by
  decide

/-! ## C9: the JSON array written by `writeActualBlocks` -/

theorem writeString_ok (fs : FileSys) (hwrite : ∀ k, fs.writeErr k = none)
    (written : List String) (s : String) : writeString fs written s = (written ++ [s], none) := by
  simp only [writeString, hwrite]

theorem writeLoop_ok (marshal : Block → Except String String) (enc : Block → String)
    (fs : FileSys) (lastIndex : Nat) (hwrite : ∀ k, fs.writeErr k = none) :
    ∀ (rest : List Block) (i : Nat) (written : List String),
      i + rest.length = lastIndex + 1 → (∀ b ∈ rest, marshal b = .ok (enc b)) →
      writeLoop marshal fs lastIndex i rest written
        = .ok (written ++ (rest.map enc).intersperse ",\n")
  | [], i, written, _, _ => by simp [writeLoop]
  | [b], i, written, hi, henc => by
    have hb := henc b (List.mem_singleton_self _)
    have hlast : i = lastIndex := by simpa using hi
    simp [writeLoop, hb, noError, writeString_ok fs hwrite, hlast]
  | b :: c :: rest, i, written, hi, henc => by
    have hb := henc b (List.mem_cons_self _ _)
    have hne : i ≠ lastIndex := by
      simp only [List.length_cons] at hi
      omega
    have ih := writeLoop_ok marshal enc fs lastIndex hwrite (c :: rest) (i + 1)
      (written ++ [enc b] ++ [",\n"]) (by simp only [List.length_cons] at hi ⊢; omega)
      (fun x hx => henc x (List.mem_cons_of_mem _ hx))
    rw [writeLoop]
    simp only [hb, noError, writeString_ok fs hwrite, hne, ne_eq, not_false_eq_true, if_true]
    rw [ih]
    simp

theorem intercalate_go (sep : String) :
    ∀ (l : List String) (acc : String),
      String.intercalate.go acc sep l = acc ++ l.foldr (fun a r => sep ++ a ++ r) ""
  | [], acc => by simp [String.intercalate.go]
  | a :: l, acc => by
    simp only [String.intercalate.go, intercalate_go sep l, List.foldr_cons, String.append_assoc]

theorem fileText_intersperse (sep : String) :
    ∀ l : List String, fileText (l.intersperse sep) = sep.intercalate l
  | [] => rfl
  | [a] => by simp [fileText, String.intercalate, String.intercalate.go]
  | a :: b :: l => by
    have ih := fileText_intersperse sep (b :: l)
    simp only [fileText, String.intercalate, List.intersperse, List.foldr_cons, intercalate_go]
      at ih ⊢
    rw [ih]
    simp only [String.append_assoc]

theorem length_intersperse {α : Type} (sep : α) :
    ∀ l : List α, (l.intersperse sep).length = l.length + (l.length - 1)
  | [] => rfl
  | [a] => rfl
  | a :: b :: l => by
    have ih := length_intersperse sep (b :: l)
    simp only [List.intersperse, List.length_cons] at ih ⊢
    omega

theorem fileText_append (xs ys : List String) : fileText (xs ++ ys) = fileText xs ++ fileText ys := by
  induction xs with
  | nil => simp [fileText]
  | cons x xs ih =>
    simp only [fileText, List.cons_append, List.foldr_cons] at ih ⊢
    rw [ih, String.append_assoc]

/-- C9: when the file is created, every write succeeds and the encoder
succeeds on each of the n blocks, `writeActualBlocks` returns after writing
"[\n", the n encoded objects in list order with ",\n" between consecutive
ones, and "]\n": the text of the file is "[\n", the objects joined by ",\n",
then "]\n"; it is "[\n]\n" for n = 0; and of the 1 + n + (n - 1) + 1 writes,
n - 1 are delimiters, none of them after the last object. -/
theorem writeActualBlocks_array (marshal : Block → Except String String) (enc : Block → String)
    (fs : FileSys) (actualFile : String) (blocks : List Block)
    (hcreate : fs.createErr = none) (hwrite : ∀ k, fs.writeErr k = none)
    (henc : ∀ b ∈ blocks, marshal b = .ok (enc b)) :
    writeActualBlocks marshal fs actualFile blocks
      = ⟨["[\n"] ++ (blocks.map enc).intersperse ",\n" ++ ["]\n"], [], .returned ()⟩ ∧
    fileText (writeActualBlocks marshal fs actualFile blocks).written
      = "[\n" ++ ",\n".intercalate (blocks.map enc) ++ "]\n" ∧
    (blocks = [] → fileText (writeActualBlocks marshal fs actualFile blocks).written = "[\n]\n") ∧
    (writeActualBlocks marshal fs actualFile blocks).written.length
      = 1 + (blocks.length + (blocks.length - 1)) + 1 := by
  have hrun : writeActualBlocks marshal fs actualFile blocks
      = ⟨["[\n"] ++ (blocks.map enc).intersperse ",\n" ++ ["]\n"], [], .returned ()⟩ := by
    cases blocks with
    | nil => simp [writeActualBlocks, hcreate, noError, writeString_ok fs hwrite]
    | cons b rest =>
      have hloop := writeLoop_ok marshal enc fs ((b :: rest).length - 1) hwrite (b :: rest) 0
        ["[\n"] (by simp) henc
      simp only [writeActualBlocks, hcreate, noError, writeString_ok fs hwrite, List.nil_append,
        gt_iff_lt, List.length_cons, Nat.zero_lt_succ, if_true]
      simp only [List.length_cons] at hloop
      rw [hloop]
  have htext : fileText (["[\n"] ++ (blocks.map enc).intersperse ",\n" ++ ["]\n"])
      = "[\n" ++ ",\n".intercalate (blocks.map enc) ++ "]\n" := by
    rw [fileText_append, fileText_append, fileText_intersperse]
    simp [fileText]
  refine ⟨hrun, ?_, ?_, ?_⟩
  · rw [hrun]
    exact htext
  · intro hnil
    rw [hrun, hnil]
    rfl
  · rw [hrun]
    simp only [List.length_append, List.length_singleton, length_intersperse, List.length_map]

/-- C9 at two blocks, on a file system without failure. -/
theorem writeActualBlocks_array_witness :
    fileText (writeActualBlocks sampleMarshal goodFileSys "actual.dmlog.json"
        [sampleBlock, sampleBlock2]).written
      = "[\n" ++ ",\n".intercalate
          ([sampleBlock, sampleBlock2].map fun b => "\x7b\"id\": " ++ b.ref ++ "\x7d") ++ "]\n" :=
  (writeActualBlocks_array sampleMarshal (fun b => "\x7b\"id\": " ++ b.ref ++ "\x7d") goodFileSys
    "actual.dmlog.json" [sampleBlock, sampleBlock2] rfl (fun _ => rfl) (fun _ _ => rfl)).2.1

/-! ## C11: permission timestamps -/

theorem sanitizePermOp_sanitized (p : PermOp) : PermSanitized p (sanitizePermOp p) := by
  obtain ⟨o, n⟩ := p
  cases o <;> cases n <;> simp [PermSanitized, sanitizePermOp]

theorem forall₂_map_self {α β : Type} (R : α → β → Prop) (f : α → β) (h : ∀ x, R x (f x)) :
    ∀ l : List α, List.Forall₂ R l (l.map f)
  | [] => List.Forall₂.nil
  | x :: l => List.Forall₂.cons (h x) (forall₂_map_self R f h l)

/-- C11: when `sanitizeBlock b` returns `b'`, the Permission Operations of each
Transaction Trace of `b'` correspond position by position to those of `b`; an
old or new permission that was present is present with last-updated timestamp
equal to the fixed sentinel timestamp, and one that was absent is absent.  The
sentinel is the timestamp of 2006-01-02T15:04:05Z, the value that
`sanitizeContext` writes into the timestamp of every Log Context. -/
theorem sanitizeBlock_permissions (b b' : Block) (h : sanitizeBlock b = .ok b') :
    List.Forall₂ (fun t t' => List.Forall₂ PermSanitized t.permOps t'.permOps)
      b.unfilteredTransactionTraces b'.unfilteredTransactionTraces ∧
    fixedTimestamp = some ⟨1136214245, 0⟩ ∧
    ∀ (c : LogContext) (k : Nat) (line : Int) (threadName : String)
      (timestamp : Option Timestamp) (parent : LogContext),
      (sanitizeContext c).atDepth k = .node line threadName timestamp parent →
        timestamp = fixedTimestamp := by
  obtain ⟨ops, traces, -, htraces, rfl⟩ := sanitizeBlock_ok b b' h
  refine ⟨?_, rfl, ?_⟩
  · refine (forEach_ok_forall₂ _ _ _ htraces).imp ?_
    intro t t' ht
    obtain ⟨tops, -, rfl⟩ := sanitizeTrxTrace_ok t t' ht
    exact forall₂_map_self PermSanitized sanitizePermOp sanitizePermOp_sanitized t.permOps
  · intro c k line threadName timestamp parent hc
    exact (sanitizeContext_chain c k line threadName timestamp parent hc).2.2

/-- C11 at the sample block, whose first trace has an old permission with a
timestamp, a new permission without one, and two absent permissions. -/
theorem sanitizeBlock_permissions_witness :
    ∃ b', sanitizeBlock sampleBlock = .ok b' ∧
      List.Forall₂ (fun t t' => List.Forall₂ PermSanitized t.permOps t'.permOps)
        sampleBlock.unfilteredTransactionTraces b'.unfilteredTransactionTraces :=
  ⟨_, rfl, (sanitizeBlock_permissions sampleBlock _ rfl).1⟩

/-! ## C12: the elapsed-times under a Failed Sub-transaction Trace -/

theorem scrubContext_sanitize (c : LogContext) :
    scrubContext (sanitizeContext c) = scrubContext c := by
  induction c with
  | absent => rfl
  | node l th ts p ih => simp only [sanitizeContext, scrubContext, ih]

theorem scrubException_sanitize (e : Option Exception) :
    scrubException (sanitizeException e) = scrubException e := by
  cases e with
  | none => rfl
  | some e0 =>
    simp only [sanitizeException, scrubException, Option.map_some', List.map_map,
      Option.some.injEq, Exception.mk.injEq]
    apply List.map_congr_left
    intro f _
    simp only [Function.comp, scrubContext_sanitize]

theorem scrubFailedContexts_sanitize (d : Option FailedDtrxTrace) :
    scrubFailedContexts (sanitizeFailedDtrxTrace d) = scrubFailedContexts d := by
  cases d with
  | none => rfl
  | some d0 =>
    simp only [sanitizeFailedDtrxTrace, scrubFailedContexts, Option.map_some',
      scrubException_sanitize, List.map_map, Option.some.injEq, FailedDtrxTrace.mk.injEq,
      true_and]
    apply List.map_congr_left
    intro a _
    simp only [Function.comp, scrubException_sanitize]

theorem sanitizeFailedDtrxTrace_elapsed (d : Option FailedDtrxTrace) :
    FailedElapsedKept d (sanitizeFailedDtrxTrace d) := by
  cases d with
  | none => rfl
  | some d0 =>
    refine ⟨_, rfl, rfl, ?_⟩
    simp only [List.map_map]
    rfl

/-- C12: when `sanitizeBlock b` returns `b'`, then for each Transaction Trace of
`b` and the trace of `b'` at the same position: a Failed Sub-transaction Trace
that was present is present, its elapsed-time and the elapsed-times of its
Action Traces, in order, are those of the input, and the two failed traces are
identical except for the line number, thread name and timestamp of the Log
Contexts under their Exceptions; an absent one is absent. -/
theorem sanitizeBlock_failed_elapsed_kept (b b' : Block) (h : sanitizeBlock b = .ok b') :
    List.Forall₂
      (fun t t' => FailedElapsedKept t.failedDtrxTrace t'.failedDtrxTrace ∧
        scrubFailedContexts t'.failedDtrxTrace = scrubFailedContexts t.failedDtrxTrace)
      b.unfilteredTransactionTraces b'.unfilteredTransactionTraces := by
  obtain ⟨ops, traces, -, htraces, rfl⟩ := sanitizeBlock_ok b b' h
  refine (forEach_ok_forall₂ _ _ _ htraces).imp ?_
  intro t t' ht
  obtain ⟨tops, -, rfl⟩ := sanitizeTrxTrace_ok t t' ht
  exact ⟨sanitizeFailedDtrxTrace_elapsed _, scrubFailedContexts_sanitize _⟩

/-- C12 at the sample block, whose first trace has a Failed Sub-transaction
Trace with elapsed-time 52 and one Action Trace with elapsed-time 63. -/
theorem sanitizeBlock_failed_elapsed_kept_witness :
    ∃ b', sanitizeBlock sampleBlock = .ok b' ∧
      List.Forall₂
        (fun t t' => FailedElapsedKept t.failedDtrxTrace t'.failedDtrxTrace ∧
          scrubFailedContexts t'.failedDtrxTrace = scrubFailedContexts t.failedDtrxTrace)
        sampleBlock.unfilteredTransactionTraces b'.unfilteredTransactionTraces :=
  ⟨_, rfl, sanitizeBlock_failed_elapsed_kept sampleBlock _ rfl⟩

/-! ## C13: the frame of `sanitizeBlock` -/

theorem sanitizeContext_depth (c : LogContext) : (sanitizeContext c).depth = c.depth := by
  induction c with
  | absent => rfl
  | node l th ts p ih => simp only [sanitizeContext, LogContext.depth, ih]

theorem sanitizeException_shape (e : Option Exception) :
    ExceptionShape e (sanitizeException e) := by
  cases e with
  | none => trivial
  | some e0 =>
    exact forall₂_map_self (fun f f' => f'.context.depth = f.context.depth)
      (fun stack => { stack with context := sanitizeContext stack.context })
      (fun f => sanitizeContext_depth f.context) e0.stack

theorem sanitizeRLimitOp_shape (op op' : RlimitOp) (h : sanitizeRLimitOp op = .ok op') :
    RlimitShape op op' := by
  obtain ⟨kind⟩ := op
  cases kind with
  | accountUsage v =>
    obtain ⟨cpu, net⟩ := v
    cases cpu <;> cases net <;>
      simp [sanitizeRLimitOp, setLastOrdinal, bind, Except.bind, pure, Except.pure] at h
    subst h
    exact ⟨rfl, rfl⟩
  | state v =>
    obtain ⟨cpu, net⟩ := v
    cases cpu <;> cases net <;>
      simp [sanitizeRLimitOp, setLastOrdinal, bind, Except.bind, pure, Except.pure] at h
    subst h
    exact ⟨rfl, rfl⟩
  | other tag =>
    simp only [sanitizeRLimitOp, pure, Except.pure, Except.ok.injEq] at h
    subst h
    exact rfl

theorem sanitizePermOp_shape (p : PermOp) : PermShape p (sanitizePermOp p) := by
  obtain ⟨o, n⟩ := p
  cases o <;> cases n <;> exact ⟨rfl, rfl⟩

theorem sanitizeFailedDtrxTrace_shape (d : Option FailedDtrxTrace) :
    FailedShape d (sanitizeFailedDtrxTrace d) := by
  cases d with
  | none => trivial
  | some d0 =>
    exact ⟨sanitizeException_shape _,
      forall₂_map_self (fun a a' => ExceptionShape a.exception a'.exception)
        (fun actTrace => { actTrace with exception := sanitizeException actTrace.exception })
        (fun a => sanitizeException_shape a.exception) d0.actionTraces⟩

theorem sanitizeTrxTrace_shape (t t' : TransactionTrace) (h : sanitizeTrxTrace t = .ok t') :
    TraceShape t t' := by
  obtain ⟨ops, hops, rfl⟩ := sanitizeTrxTrace_ok t t' h
  exact ⟨sanitizeException_shape _,
    forall₂_map_self PermShape sanitizePermOp sanitizePermOp_shape _,
    (forEach_ok_forall₂ _ _ _ hops).imp fun {op op'} hop => sanitizeRLimitOp_shape op op' hop,
    forall₂_map_self (fun a a' => ExceptionShape a.exception a'.exception) sanitizeActionTrace
      (fun a => sanitizeException_shape a.exception) _,
    sanitizeFailedDtrxTrace_shape _⟩

theorem scrubRlimitOp_sanitize (op op' : RlimitOp) (h : sanitizeRLimitOp op = .ok op') :
    scrubRlimitOp op' = scrubRlimitOp op := by
  obtain ⟨kind⟩ := op
  cases kind with
  | accountUsage v =>
    obtain ⟨cpu, net⟩ := v
    cases cpu <;> cases net <;>
      simp [sanitizeRLimitOp, setLastOrdinal, bind, Except.bind, pure, Except.pure] at h
    subst h
    rfl
  | state v =>
    obtain ⟨cpu, net⟩ := v
    cases cpu <;> cases net <;>
      simp [sanitizeRLimitOp, setLastOrdinal, bind, Except.bind, pure, Except.pure] at h
    subst h
    rfl
  | other tag =>
    simp only [sanitizeRLimitOp, pure, Except.pure, Except.ok.injEq] at h
    subst h
    rfl

theorem scrubPermOp_sanitize (p : PermOp) : scrubPermOp (sanitizePermOp p) = scrubPermOp p := by
  obtain ⟨o, n⟩ := p
  cases o <;> cases n <;> rfl

theorem scrubActionTrace_sanitize (a : ActionTrace) :
    scrubActionTrace (sanitizeActionTrace a) = scrubActionTrace a := by
  simp only [sanitizeActionTrace, scrubActionTrace, scrubException_sanitize]

theorem forEach_map_eq {α β : Type} (body : α → Except Panic α) (g : α → β)
    (hbody : ∀ x y, body x = .ok y → g y = g x) (xs ys : List α)
    (h : forEach body xs = .ok ys) : ys.map g = xs.map g := by
  have h2 := forEach_ok_forall₂ body xs ys h
  clear h
  induction h2 with
  | nil => rfl
  | cons hx _ ih => simp only [List.map_cons, hbody _ _ hx, ih]

theorem scrubTrxTrace_sanitize (t t' : TransactionTrace) (h : sanitizeTrxTrace t = .ok t') :
    scrubTrxTrace scrubFailedContexts t' = scrubTrxTrace scrubFailedContexts t := by
  obtain ⟨ops, hops, rfl⟩ := sanitizeTrxTrace_ok t t' h
  have hr := forEach_map_eq sanitizeRLimitOp scrubRlimitOp scrubRlimitOp_sanitize _ _ hops
  simp only [scrubTrxTrace, scrubException_sanitize, scrubFailedContexts_sanitize, hr,
    List.map_map, TransactionTrace.mk.injEq, true_and, and_true]
  refine ⟨?_, ?_⟩
  · apply List.map_congr_left
    intro p _
    simp only [Function.comp, scrubPermOp_sanitize]
  · apply List.map_congr_left
    intro a _
    simp only [Function.comp, scrubActionTrace_sanitize]

/-- C13: when `sanitizeBlock b` returns `b'`, the two records have the same
shape (the same reference; every list with the same length and order; every
Resource-Limit Operation with the same variant tag and the same counters
present; every exception, permission, Failed Sub-transaction Trace and Log
Context present in both or in neither; every Log Context chain of the same
depth), and they are identical except for the values of last ordinals, of the
elapsed-times of top-level Transaction Traces and of their Action Traces, of
permission last-updated timestamps and of Log Context line numbers, thread
names and timestamps. -/
theorem sanitizeBlock_frame (b b' : Block) (h : sanitizeBlock b = .ok b') :
    BlockShape b b' ∧ SameUpToAssigned b b' := by
  obtain ⟨ops, traces, hops, htraces, rfl⟩ := sanitizeBlock_ok b b' h
  refine ⟨⟨rfl, ?_, ?_⟩, ?_⟩
  · exact (forEach_ok_forall₂ _ _ _ hops).imp fun {op op'} hop => sanitizeRLimitOp_shape op op' hop
  · exact (forEach_ok_forall₂ _ _ _ htraces).imp fun {t t'} ht => sanitizeTrxTrace_shape t t' ht
  · have hr := forEach_map_eq sanitizeRLimitOp scrubRlimitOp scrubRlimitOp_sanitize _ _ hops
    have ht := forEach_map_eq sanitizeTrxTrace (scrubTrxTrace scrubFailedContexts)
      scrubTrxTrace_sanitize _ _ htraces
    simp only [SameUpToAssigned, scrubBlockWith, hr, ht]

/-- C13 at the sample block. -/
theorem sanitizeBlock_frame_witness :
    ∃ b', sanitizeBlock sampleBlock = .ok b' ∧ BlockShape sampleBlock b' ∧
      SameUpToAssigned sampleBlock b' :=
  ⟨_, rfl, sanitizeBlock_frame sampleBlock _ rfl⟩

/-! ## C14: the item of a call is processed before its error -/

/-- From any state of the read loop, when the next call returns a Block Record
`b` together with an error and `sanitizeBlock b` returns `b'`, the pass first
records `b'` (as last block read, with its "Parsed block" print and at the end
of the blocks) and only then examines the error: with end-of-stream the run
returns the blocks read so far followed by `b'`; with any other error it prints
the failure message that names the reference of `b` as the last block read,
whatever block was read before, and exits with code 1. -/
theorem readLoop_item_before_error (env : ReadEnv) (filePath : String) (s : ReadState)
    (b b' : Block) (err : ReadErr) (fuel : Nat)
    (hread : env.read s.reads = ⟨.block (some b), some err⟩)
    (hb : sanitizeBlock b = .ok b') :
    readLoop env filePath (fuel + 1) s
      = some (match err with
        | .eof =>
          ⟨s.stdout ++ [parsedBlockPrint b.AsRef], s.reads + 1, .returned (s.blocks ++ [b'])⟩
        | .failure text =>
          ⟨s.stdout ++ [parsedBlockPrint b.AsRef, readFailurePrint filePath text (some b.AsRef)],
            s.reads + 1, .exited 1⟩) := by
  have href : b'.AsRef = b.AsRef := by
    obtain ⟨ops, traces, -, -, rfl⟩ := sanitizeBlock_ok b b' hb
    rfl
  rw [readLoop, readIteration_block env filePath s b b' (some err) hread hb, href]
  cases err with
  | eof => simp [checkErr]
  | failure text =>
    simp [checkErr, noError, quit, readFailurePrint, href, String.append_assoc]

/-- Two runs of `readActualBlocks` in which the first call returns a record
without error and the second call returns a record together with
end-of-stream, respectively with a fatal error. -/
theorem readLoop_item_before_error_sample :
    sanitizeBlock sampleBlock2 = .ok (sanitized sampleBlock2) ∧
    readActualBlocks eofWithBlockEnv "actual.dmlog" 2
      = some ⟨[parsedBlockPrint sampleBlock.AsRef, parsedBlockPrint sampleBlock2.AsRef], 2,
          .returned [sanitized sampleBlock, sanitized sampleBlock2]⟩ ∧
    readActualBlocks failureWithBlockEnv "actual.dmlog" 2
      = some ⟨[parsedBlockPrint sampleBlock.AsRef, parsedBlockPrint sampleBlock2.AsRef,
          readFailurePrint "actual.dmlog" "unexpected line" (some sampleBlock2.AsRef)], 2,
          .exited 1⟩ :=
  ⟨rfl,
    (rfl : readActualBlocks eofWithBlockEnv "actual.dmlog" 2
      = readLoop eofWithBlockEnv "actual.dmlog" (0 + 1)
          ⟨1, some (sanitized sampleBlock), [sanitized sampleBlock],
            [parsedBlockPrint sampleBlock.AsRef]⟩).trans
      (readLoop_item_before_error eofWithBlockEnv "actual.dmlog"
        ⟨1, some (sanitized sampleBlock), [sanitized sampleBlock],
          [parsedBlockPrint sampleBlock.AsRef]⟩
        sampleBlock2 (sanitized sampleBlock2) .eof 0 rfl rfl),
    (rfl : readActualBlocks failureWithBlockEnv "actual.dmlog" 2
      = readLoop failureWithBlockEnv "actual.dmlog" (0 + 1)
          ⟨1, some (sanitized sampleBlock), [sanitized sampleBlock],
            [parsedBlockPrint sampleBlock.AsRef]⟩).trans
      (readLoop_item_before_error failureWithBlockEnv "actual.dmlog"
        ⟨1, some (sanitized sampleBlock), [sanitized sampleBlock],
          [parsedBlockPrint sampleBlock.AsRef]⟩
        sampleBlock2 (sanitized sampleBlock2) (.failure "unexpected line") 0 rfl rfl)⟩

/-- From any state of the read loop, when the next call returns a Block Record
on which `sanitizeBlock` panics, the pass ends in that panic, whatever the
error of the call: nothing is printed for the record and the error is never
examined. -/
theorem readIteration_block_panics (env : ReadEnv) (filePath : String) (s : ReadState)
    (b : Block) (err : Option ReadErr) (p : Panic)
    (hread : env.read s.reads = ⟨.block (some b), err⟩) (hb : sanitizeBlock b = .error p) :
    readIteration env filePath s = .stop ⟨s.stdout, s.reads + 1, .panicked p⟩ := by
  simp [readIteration, hread, isBlockItem, assertBlock, assertBlockOk, ensure, hb, pure,
    Except.pure, bind, Except.bind]

/-- C14: on the stream whose first call returns a record without error and
whose second call returns the Block Record with an absent CPU-usage counter
together with end-of-stream, and on the same stream with a fatal error in place
of end-of-stream, `readActualBlocks` panics in the second pass: the record of
the second call is neither reported by a "Parsed block" print nor returned,
and no failure message naming it is printed. -/
theorem readActualBlocks_panics_on_absent_counter_with_error :
    readActualBlocks noCpuWithEofEnv "actual.dmlog" 3
      = some ⟨[parsedBlockPrint sampleBlock.AsRef], 2, .panicked .nilDereference⟩ ∧
    readActualBlocks noCpuWithFailureEnv "actual.dmlog" 3
      = some ⟨[parsedBlockPrint sampleBlock.AsRef], 2, .panicked .nilDereference⟩ :=
  ⟨rfl, rfl⟩

end DmDecode
